import Mathlib

/-!
Verification development for the `prisma-ksuid` library.

Part 1 embeds the KSUID generator (`src/unnamed/part_009`, the in-repo
implementation of `util/ksuid.ts`): base62 encoding of a 20-byte buffer
(4-byte big-endian timestamp since a custom epoch followed by 16 random
bytes) and the `generateKSUID` entry point.

Part 2 embeds the Prisma client extension (`src/unnamed/part_011`, the
feature-complete `prisma-extension.ts` that the repository's test-suite
exercises: `primaryKeyField`, nested `create`/`createMany`/
`connectOrCreate`/`upsert` handling), together with the configuration
check shared verbatim by every variant of the extension.

JavaScript `Date.now()` / `crypto.randomBytes` are modelled as explicit
arguments (milliseconds since the Unix epoch, and a list of byte values);
the extension's stream of generated identifier bodies is modelled as a
function from the call index to the 27-character body, which is faithful
because the source's `generateKSUID(prefix)` is `prefix ++ body` with the
body independent of the prefix.
-/

namespace PrismaKsuid

/-- Base62 alphabet, from `part_009` line 30. -/
def BASE62_ALPHABET : String :=
  "0123456789ABCDEFGHIJKLMNOPQRSTUVWXYZabcdefghijklmnopqrstuvwxyz"

/-- Character selection `BASE62_ALPHABET[d]` (`part_009` line 51). -/
def base62Char (d : Nat) : Char :=
  BASE62_ALPHABET.data.getD d '0'

/-- The `while (num > 0)` loop of `encodeBase62` (`part_009` lines 50-53),
written with an explicit bound on the number of iterations; `toBase62`
supplies a sufficient bound, since the value shrinks at every division
by 62. Digits come out most-significant first, exactly as the source
builds its string by prepending. -/
def toBase62Aux : Nat → Nat → List Char
  | 0, _ => []
  | _ + 1, 0 => []
  | f + 1, n + 1 => toBase62Aux f ((n + 1) / 62) ++ [base62Char ((n + 1) % 62)]

/-- Digit list of `n` in base 62, most-significant first; empty for `0`,
matching the source loop. -/
def toBase62 (n : Nat) : List Char :=
  toBase62Aux n n

/-- The `.padStart(27, "0")` step (`part_009` line 56): left-pad with the
alphabet's zero character up to 27 characters, leave longer lists alone. -/
def padStart27 (l : List Char) : List Char :=
  List.replicate (27 - l.length) '0' ++ l

/-- Value of a byte buffer read as a big-endian unsigned integer, the
meaning of `BigInt("0x" + buffer.toString("hex"))` (`part_009` line 45). -/
def bufToNat (bytes : List Nat) : Nat :=
  bytes.foldl (fun acc b => acc * 256 + b) 0

/-- `encodeBase62` (`part_009` lines 43-57) on a byte buffer. -/
def encodeBase62 (buf : List Nat) : String :=
  ⟨padStart27 (toBase62 (bufToNat buf))⟩

/-- Custom KSUID epoch (`part_009` line 23). -/
def EPOCH : Nat := 1400000000

/-- Big-endian 4-byte encoding of a 32-bit value,
`timeBuffer.writeUInt32BE(seconds)` (`part_009` line 78). -/
def writeUInt32BE (s : Nat) : List Nat :=
  [s / 16777216 % 256, s / 65536 % 256, s / 256 % 256, s % 256]

/-- The 27-character body produced by `generateKSUID` (`part_009`
lines 71-88) at wall-clock time `nowMs` (milliseconds) with the 16
random bytes `rnd`: base62 encoding of the 4 timestamp bytes followed
by the random bytes. -/
def ksuidBody (nowMs : Nat) (rnd : List Nat) : String :=
  encodeBase62 (writeUInt32BE (nowMs / 1000 - EPOCH) ++ rnd)

/-- `generateKSUID` (`part_009` lines 71-88). `now` is
`Math.floor(Date.now() / 1000)`; `seconds = now - EPOCH` is written with
`writeUInt32BE`, which Node rejects with a `RangeError` for values
outside `[0, 2^32)`; otherwise the prefixed encoded string is returned. -/
def generateKSUID (pfx : String) (nowMs : Nat) (rnd : List Nat) :
    Except String String :=
  let now := nowMs / 1000
  let seconds : Int := (now : Int) - (EPOCH : Int)
  if seconds < 0 ∨ (4294967296 : Int) ≤ seconds then
    .error "RangeError"
  else
    .ok (pfx ++ encodeBase62 (writeUInt32BE seconds.toNat ++ rnd))

/-- A character of the base62 alphabet `0-9A-Za-z`. -/
def isB62 (c : Char) : Bool :=
  ('0' ≤ c && c ≤ '9') || ('A' ≤ c && c ≤ 'Z') || ('a' ≤ c && c ≤ 'z')

/-- A well-formed generated identifier body: 27 characters, all from the
base62 alphabet. -/
def validBody (s : String) : Prop :=
  s.length = 27 ∧ ∀ c ∈ s.data, isB62 c = true

/-- Fixed-width big-endian base-62 digit expansion (`k` digits). -/
def digitsBE : Nat → Nat → List Nat
  | 0, _ => []
  | k + 1, n => n / 62 ^ k :: digitsBE k (n % 62 ^ k)

/-- Left-padding with `'0'` to width `k`. -/
def padTo (k : Nat) (l : List Char) : List Char :=
  List.replicate (k - l.length) '0' ++ l

theorem padStart27_eq_padTo (l : List Char) : padStart27 l = padTo 27 l := rfl

theorem digitsBE_zero (k : Nat) : digitsBE k 0 = List.replicate k 0 := by
  induction k with
  | zero => rfl
  | succ k ih => simp [digitsBE, Nat.zero_div, Nat.zero_mod, ih, List.replicate_succ]

theorem digitsBE_length (k n : Nat) : (digitsBE k n).length = k := by
  induction k generalizing n with
  | zero => rfl
  | succ k ih => simp [digitsBE, ih]

theorem digitsBE_snoc (k : Nat) : ∀ n, n < 62 ^ (k + 1) →
    digitsBE (k + 1) n = digitsBE k (n / 62) ++ [n % 62] := by
  induction k with
  | zero =>
    intro n hn
    simp [digitsBE, Nat.div_one, Nat.mod_one, Nat.mod_eq_of_lt (by simpa using hn)]
  | succ k ih =>
    intro n hn
    have hmod : n % 62 ^ (k + 1) < 62 ^ (k + 1) := Nat.mod_lt _ (Nat.pos_pow_of_pos _ (by norm_num))
    have h1 : n % 62 ^ (k + 1) % 62 = n % 62 :=
      Nat.mod_mod_of_dvd n ⟨62 ^ k, by rw [pow_succ, mul_comm]⟩
    have h2 : n % 62 ^ (k + 1) / 62 = n / 62 % 62 ^ k := by
      have := Nat.mod_mul_right_div_self n 62 (62 ^ k)
      rwa [show 62 * 62 ^ k = 62 ^ (k + 1) by rw [pow_succ, mul_comm]] at this
    have h3 : n / 62 ^ (k + 1) = n / 62 / 62 ^ k := by
      rw [Nat.div_div_eq_div_mul, show 62 * 62 ^ k = 62 ^ (k + 1) by rw [pow_succ, mul_comm]]
    calc digitsBE (k + 2) n
        = n / 62 ^ (k + 1) :: digitsBE (k + 1) (n % 62 ^ (k + 1)) := rfl
      _ = n / 62 ^ (k + 1) :: (digitsBE k (n % 62 ^ (k + 1) / 62) ++ [n % 62 ^ (k + 1) % 62]) := by
          rw [ih _ hmod]
      _ = n / 62 / 62 ^ k :: (digitsBE k (n / 62 % 62 ^ k) ++ [n % 62]) := by
          rw [h1, h2, h3]
      _ = digitsBE (k + 1) (n / 62) ++ [n % 62] := rfl

theorem digitsBE_lt (k : Nat) : ∀ n, n < 62 ^ k → ∀ d ∈ digitsBE k n, d < 62 := by
  induction k with
  | zero => intro n _ d hd; simp [digitsBE] at hd
  | succ k ih =>
    intro n hn d hd
    simp only [digitsBE, List.mem_cons] at hd
    rcases hd with h | h
    · subst h
      have : n < 62 ^ k * 62 := by rw [← pow_succ]; exact hn
      exact Nat.div_lt_of_lt_mul this
    · exact ih _ (Nat.mod_lt _ (Nat.pos_pow_of_pos _ (by norm_num))) _ h

theorem toBase62Aux_padded : ∀ f n, n ≤ f → ∀ k, n < 62 ^ k →
    padTo k (toBase62Aux f n) = (digitsBE k n).map base62Char := by
  intro f
  induction f with
  | zero =>
    intro n hn k hk
    interval_cases n
    simp [toBase62Aux, padTo, digitsBE_zero, List.map_replicate,
      show base62Char 0 = '0' from rfl]
  | succ f ih =>
    intro n hn k hk
    match n with
    | 0 =>
      simp [toBase62Aux, padTo, digitsBE_zero, List.map_replicate,
        show base62Char 0 = '0' from rfl]
    | m + 1 =>
      match k with
      | 0 => omega
      | j + 1 =>
        have hq : (m + 1) / 62 ≤ f := by
          have := Nat.div_lt_self (Nat.succ_pos m) (by norm_num : 1 < 62)
          omega
        have hqk : (m + 1) / 62 < 62 ^ j := by
          have : m + 1 < 62 * 62 ^ j := by rw [← Nat.pow_succ']; exact hk
          exact Nat.div_lt_of_lt_mul this
        have ihq := ih ((m + 1) / 62) hq j hqk
        rw [digitsBE_snoc j (m + 1) hk]
        show padTo (j + 1) (toBase62Aux f ((m + 1) / 62) ++ [base62Char ((m + 1) % 62)]) = _
        rw [List.map_append]
        rw [← ihq]
        simp only [padTo, List.length_append, List.length_singleton, List.map_cons,
          List.map_nil]
        rw [show j + 1 - ((toBase62Aux f ((m + 1) / 62)).length + 1)
              = j - (toBase62Aux f ((m + 1) / 62)).length by omega]
        rw [List.append_assoc]

theorem toBase62_padded (n k : Nat) (hk : n < 62 ^ k) :
    padTo k (toBase62 n) = (digitsBE k n).map base62Char :=
  toBase62Aux_padded n n le_rfl k hk

theorem base62Char_strictMono : ∀ b < 62, ∀ a < b, base62Char a < base62Char b := by decide

theorem base62Char_isB62 : ∀ d < 62, isB62 (base62Char d) = true := by decide

/-- Lexicographic comparison of equal-width base62 digit strings agrees with
numeric comparison. -/
theorem digitsBE_map_lt : ∀ k a b, a < b → b < 62 ^ k →
    List.Lex (· < ·) ((digitsBE k a).map base62Char) ((digitsBE k b).map base62Char) := by
  intro k
  induction k with
  | zero =>
    intro a b hab hb
    simp at hb
    omega
  | succ k ih =>
    intro a b hab hb
    have hda : a / 62 ^ k ≤ b / 62 ^ k := Nat.div_le_div_right (le_of_lt hab)
    have hdb : b / 62 ^ k < 62 := by
      have : b < 62 ^ k * 62 := by rw [← pow_succ]; exact hb
      exact Nat.div_lt_of_lt_mul this
    show List.Lex (· < ·)
      (base62Char (a / 62 ^ k) :: (digitsBE k (a % 62 ^ k)).map base62Char)
      (base62Char (b / 62 ^ k) :: (digitsBE k (b % 62 ^ k)).map base62Char)
    rcases lt_or_eq_of_le hda with hlt | heq
    · exact List.Lex.rel (base62Char_strictMono _ hdb _ hlt)
    · have ha2 := Nat.div_add_mod a (62 ^ k)
      have hb2 := Nat.div_add_mod b (62 ^ k)
      rw [heq] at ha2
      have hmodlt : a % 62 ^ k < b % 62 ^ k := by omega
      have hmb : b % 62 ^ k < 62 ^ k := Nat.mod_lt _ (Nat.pos_pow_of_pos _ (by norm_num))
      rw [heq]
      exact List.Lex.cons (ih _ _ hmodlt hmb)

theorem bufToNat_foldl_init (bs : List Nat) : ∀ init,
    bs.foldl (fun acc b => acc * 256 + b) init = init * 256 ^ bs.length + bufToNat bs := by
  induction bs with
  | nil => intro init; simp [bufToNat]
  | cons b bs ih =>
    intro init
    show bs.foldl _ (init * 256 + b) = _
    rw [ih (init * 256 + b)]
    have hb : bufToNat (b :: bs) = b * 256 ^ bs.length + bufToNat bs := by
      show bs.foldl _ (0 * 256 + b) = _
      rw [ih (0 * 256 + b)]
      ring
    rw [hb]
    simp [List.length_cons, pow_succ]
    ring

theorem bufToNat_append (a b : List Nat) :
    bufToNat (a ++ b) = bufToNat a * 256 ^ b.length + bufToNat b := by
  show (a ++ b).foldl _ 0 = _
  rw [List.foldl_append]
  exact bufToNat_foldl_init b (bufToNat a)

theorem bufToNat_lt (bs : List Nat) (hb : ∀ b ∈ bs, b < 256) :
    bufToNat bs < 256 ^ bs.length := by
  have key : ∀ (l : List Nat), (∀ b ∈ l, b < 256) → ∀ init,
      l.foldl (fun acc b => acc * 256 + b) init < (init + 1) * 256 ^ l.length := by
    intro l
    induction l with
    | nil => intro _ init; simp
    | cons x xs ih =>
      intro hl init
      show xs.foldl _ (init * 256 + x) < _
      have hx : x < 256 := hl x (List.mem_cons_self _ _)
      have := ih (fun b hb => hl b (List.mem_cons_of_mem _ hb)) (init * 256 + x)
      calc xs.foldl (fun acc b => acc * 256 + b) (init * 256 + x)
          < (init * 256 + x + 1) * 256 ^ xs.length := this
        _ ≤ (init + 1) * 256 ^ (x :: xs).length := by
            simp only [List.length_cons, pow_succ]
            have : init * 256 + x + 1 ≤ (init + 1) * 256 := by omega
            calc (init * 256 + x + 1) * 256 ^ xs.length
                ≤ (init + 1) * 256 * 256 ^ xs.length := Nat.mul_le_mul_right _ this
              _ = (init + 1) * (256 ^ xs.length * 256) := by ring

  have := key bs hb 0
  simpa using this

theorem bufToNat_writeUInt32BE (s : Nat) (hs : s < 4294967296) :
    bufToNat (writeUInt32BE s) = s := by
  show (((0 * 256 + s / 16777216 % 256) * 256 + s / 65536 % 256) * 256
      + s / 256 % 256) * 256 + s % 256 = s
  omega

theorem two_pow_160_lt : (4294967296 : Nat) * 256 ^ 16 < 62 ^ 27 := by decide

/-- Base62 encoding of 20-byte buffers is strictly order-preserving. -/
theorem encodeBase62_lt_of_val_lt (bufA bufB : List Nat)
    (hv : bufToNat bufA < bufToNat bufB) (hb : bufToNat bufB < 62 ^ 27) :
    encodeBase62 bufA < encodeBase62 bufB := by
  rw [String.lt_iff_toList_lt]
  have ha : bufToNat bufA < 62 ^ 27 := lt_trans hv hb
  show padStart27 (toBase62 (bufToNat bufA)) < padStart27 (toBase62 (bufToNat bufB))
  rw [padStart27_eq_padTo, padStart27_eq_padTo, toBase62_padded _ _ ha, toBase62_padded _ _ hb]
  exact digitsBE_map_lt 27 _ _ hv hb

theorem encodeBase62_valid (buf : List Nat) (hb : bufToNat buf < 62 ^ 27) :
    validBody (encodeBase62 buf) := by
  have hpad : padStart27 (toBase62 (bufToNat buf)) = (digitsBE 27 (bufToNat buf)).map base62Char := by
    rw [padStart27_eq_padTo, toBase62_padded _ _ hb]
  constructor
  · show (padStart27 (toBase62 (bufToNat buf))).length = 27
    rw [hpad, List.length_map, digitsBE_length]
  · intro c hc
    have : c ∈ (digitsBE 27 (bufToNat buf)).map base62Char := by
      rw [← hpad]; exact hc
    rcases List.mem_map.mp this with ⟨d, hd, rfl⟩
    exact base62Char_isB62 d (digitsBE_lt 27 _ hb d hd)

theorem bufToNat_ksuidBuf (s : Nat) (rnd : List Nat) (hs : s < 4294967296)
    (hlen : rnd.length = 16) :
    bufToNat (writeUInt32BE s ++ rnd) = s * 256 ^ 16 + bufToNat rnd := by
  rw [bufToNat_append, bufToNat_writeUInt32BE s hs, hlen]

theorem ksuidBuf_lt_62pow27 (s : Nat) (rnd : List Nat) (hs : s < 4294967296)
    (hlen : rnd.length = 16) (hb : ∀ b ∈ rnd, b < 256) :
    bufToNat (writeUInt32BE s ++ rnd) < 62 ^ 27 := by
  rw [bufToNat_ksuidBuf s rnd hs hlen]
  have hr : bufToNat rnd < 256 ^ 16 := by
    have := bufToNat_lt rnd hb
    rwa [hlen] at this
  calc s * 256 ^ 16 + bufToNat rnd
      < s * 256 ^ 16 + 256 ^ 16 := by omega
    _ = (s + 1) * 256 ^ 16 := by ring
    _ ≤ 4294967296 * 256 ^ 16 := Nat.mul_le_mul_right _ (by omega)
    _ < 62 ^ 27 := two_pow_160_lt

/-- C1. Two KSUID bodies whose (in-range) embedded timestamps come from
generation instants more than one second apart are lexicographically
ordered as the timestamps are: the base62 alphabet is ASCII-ascending and
the fixed-width encoding of the 20-byte big-endian buffer is
order-preserving, so the earlier body compares strictly below the later
one in string order. -/
theorem c1_bodies_lex_monotone (nowMsA nowMsB : Nat) (rndA rndB : List Nat)
    (hAlo : EPOCH ≤ nowMsA / 1000) (hBhi : nowMsB / 1000 < EPOCH + 4294967296)
    (hgap : nowMsA + 1000 < nowMsB)
    (hlenA : rndA.length = 16) (hlenB : rndB.length = 16)
    (hbA : ∀ b ∈ rndA, b < 256) (hbB : ∀ b ∈ rndB, b < 256) :
    ksuidBody nowMsA rndA < ksuidBody nowMsB rndB := by
  have hts : nowMsA / 1000 < nowMsB / 1000 := by omega
  have hsA : nowMsA / 1000 - EPOCH < nowMsB / 1000 - EPOCH := by
    unfold EPOCH at *
    omega
  have hsBlt : nowMsB / 1000 - EPOCH < 4294967296 := by
    unfold EPOCH at *
    omega
  have hsAlt : nowMsA / 1000 - EPOCH < 4294967296 := by omega
  apply encodeBase62_lt_of_val_lt
  · rw [bufToNat_ksuidBuf _ _ hsAlt hlenA, bufToNat_ksuidBuf _ _ hsBlt hlenB]
    have hrA : bufToNat rndA < 256 ^ 16 := by
      have := bufToNat_lt rndA hbA
      rwa [hlenA] at this
    calc (nowMsA / 1000 - EPOCH) * 256 ^ 16 + bufToNat rndA
        < (nowMsA / 1000 - EPOCH) * 256 ^ 16 + 256 ^ 16 := by omega
      _ = (nowMsA / 1000 - EPOCH + 1) * 256 ^ 16 := by ring
      _ ≤ (nowMsB / 1000 - EPOCH) * 256 ^ 16 := Nat.mul_le_mul_right _ (by omega)
      _ ≤ (nowMsB / 1000 - EPOCH) * 256 ^ 16 + bufToNat rndB := Nat.le_add_right _ _
  · exact ksuidBuf_lt_62pow27 _ _ hsBlt hlenB hbB

/-- Witness for C1 at concrete inputs: generation instants 1400000000000ms
and 1400000002000ms (two seconds apart) with concrete random bytes. -/
theorem c1_witness :
    ksuidBody 1400000000000 (List.replicate 16 255)
      < ksuidBody 1400000002000 (List.replicate 16 0) :=
  c1_bodies_lex_monotone 1400000000000 1400000002000 _ _
    (by norm_num [EPOCH]) (by norm_num [EPOCH]) (by norm_num)
    (by simp) (by simp) (by simp) (by simp)

/-- C2. For every prefix string (the empty string included), a successful
`generateKSUID` call returns the prefix concatenated with a body of
exactly 27 characters drawn from the base62 alphabet `0-9A-Za-z`, so the
total length is the prefix length plus 27. -/
theorem c2_generate_shape (pfx : String) (nowMs : Nat) (rnd : List Nat)
    (hlo : EPOCH ≤ nowMs / 1000) (hhi : nowMs / 1000 < EPOCH + 4294967296)
    (hlen : rnd.length = 16) (hb : ∀ b ∈ rnd, b < 256) :
    generateKSUID pfx nowMs rnd = .ok (pfx ++ ksuidBody nowMs rnd) ∧
      validBody (ksuidBody nowMs rnd) ∧
      (pfx ++ ksuidBody nowMs rnd).length = pfx.length + 27 := by
  have hs : nowMs / 1000 - EPOCH < 4294967296 := by unfold EPOCH at *; omega
  have hvalid : validBody (ksuidBody nowMs rnd) :=
    encodeBase62_valid _ (ksuidBuf_lt_62pow27 _ _ hs hlen hb)
  refine ⟨?_, hvalid, ?_⟩
  · unfold generateKSUID
    have hcond : ¬ (((nowMs / 1000 : Nat) : Int) - (EPOCH : Int) < 0 ∨
        (4294967296 : Int) ≤ ((nowMs / 1000 : Nat) : Int) - (EPOCH : Int)) := by
      unfold EPOCH at *
      omega
    rw [if_neg hcond]
    have htn : (((nowMs / 1000 : Nat) : Int) - (EPOCH : Int)).toNat = nowMs / 1000 - EPOCH := by
      unfold EPOCH at *
      omega
    rw [htn]
    rfl
  · rw [String.length_append, hvalid.1]

/-- Witness for C2 at a concrete prefix, instant, and random block. -/
theorem c2_witness :
    generateKSUID "usr_" 1400000001000 (List.replicate 16 7)
        = .ok ("usr_" ++ ksuidBody 1400000001000 (List.replicate 16 7)) ∧
      validBody (ksuidBody 1400000001000 (List.replicate 16 7)) ∧
      ("usr_" ++ ksuidBody 1400000001000 (List.replicate 16 7)).length = "usr_".length + 27 :=
  c2_generate_shape "usr_" 1400000001000 (List.replicate 16 7)
    (by norm_num [EPOCH]) (by norm_num [EPOCH]) (by simp) (by simp)

/-- C10. `generateKSUID` aborts with a `RangeError` exactly when the
wall-clock time in whole seconds is before the custom epoch 1400000000 or
at least `2^32` seconds past it — those are the timestamps `writeUInt32BE`
rejects — and succeeds for every instant inside that window, regardless of
the random bytes drawn. -/
theorem c10_generate_range (pfx : String) (nowMs : Nat) (rnd : List Nat) :
    (generateKSUID pfx nowMs rnd = .error "RangeError"
        ↔ (nowMs / 1000 < EPOCH ∨ EPOCH + 4294967296 ≤ nowMs / 1000)) ∧
      ((EPOCH ≤ nowMs / 1000 ∧ nowMs / 1000 < EPOCH + 4294967296)
        ↔ ∃ s, generateKSUID pfx nowMs rnd = .ok s) := by
  unfold generateKSUID
  by_cases hcond : (((nowMs / 1000 : Nat) : Int) - (EPOCH : Int) < 0 ∨
      (4294967296 : Int) ≤ ((nowMs / 1000 : Nat) : Int) - (EPOCH : Int))
  · rw [if_pos hcond]
    constructor
    · simp only [true_iff]
      unfold EPOCH at *
      omega
    · constructor
      · intro h
        unfold EPOCH at *
        omega
      · intro ⟨s, hs⟩
        simp at hs
  · rw [if_neg hcond]
    constructor
    · constructor
      · intro h
        simp at h
      · intro h
        unfold EPOCH at *
        omega
    · constructor
      · intro _
        exact ⟨_, rfl⟩
      · intro _
        unfold EPOCH at *
        omega

/-- Witness for C10: inside the window generation succeeds, before the
epoch it fails with the range error. -/
theorem c10_witness :
    (∃ s, generateKSUID "k_" 1400000005000 (List.replicate 16 1) = .ok s) ∧
      generateKSUID "k_" 999 (List.replicate 16 1) = .error "RangeError" := by
  constructor
  · exact (c10_generate_range "k_" 1400000005000 (List.replicate 16 1)).2.mp
      (by norm_num [EPOCH])
  · exact (c10_generate_range "k_" 999 (List.replicate 16 1)).1.mpr
      (by norm_num [EPOCH])

/-! ## Part 2: the Prisma client extension (`src/unnamed/part_011`)

JavaScript values flowing through the extension are modelled by `Json`
(`undefined` is a separate constructor since the source distinguishes it
from `null`). Objects are ordered key/value lists, matching JavaScript
property insertion order; `{...value, key: x}` is modelled by `setF`,
which replaces an existing key in place and appends a fresh one, exactly
like property assignment on a spread copy.

The extension's calls to `generateKSUID(prefix)` always produce
`prefix ++ body` with the body independent of the prefix, so the stream
of bodies is abstracted as `bodies : Nat → String` in the configuration,
indexed by the order of the calls. The DMMF metadata lookup
(`getModelFromRelation`, which inspects `context._dmmf` and returns
either a field type or `null`) is abstracted as the configuration
function `dmmf`; the repository's extension receives no `_dmmf` on
current Prisma clients, which corresponds to `dmmf` returning `none`.

The recursive tree walk `processNestedCreates` terminates because it
follows the payload structure; this is expressed with an explicit bound
(`fuel`) decremented at every recursive call, and `pncAdequate` below
proves that `sizeOf` of the payload is always a sufficient bound, so the
wrappers `pncTop`/`createHandler`/`createManyHandler` never hit it. -/

/-- JavaScript values appearing in creation payloads. -/
inductive Json where
  | null
  | undef
  | bool (b : Bool)
  | num (n : Int)
  | str (s : String)
  | arr (elems : List Json)
  | obj (fields : List (String × Json))

/-- The test `item === null || item === undefined` used by the
filtering steps. -/
def isNullish : Json → Bool
  | .null => true
  | .undef => true
  | _ => false

mutual

/-- Executable size of a payload tree, the recursion bound fed to the
tree walk by its wrappers. -/
def jsize : Json → Nat
  | .arr xs => 1 + jsizeList xs
  | .obj fs => 1 + jsizeFields fs
  | _ => 1

def jsizeList : List Json → Nat
  | [] => 0
  | x :: xs => 1 + jsize x + jsizeList xs

def jsizeFields : List (String × Json) → Nat
  | [] => 0
  | (_, v) :: fs => 1 + jsize v + jsizeFields fs

end

/-- Property read: first binding of `key`, if any. -/
def lookupF : List (String × Json) → String → Option Json
  | [], _ => none
  | (k, v) :: fs, key => if k = key then some v else lookupF fs key

/-- Property write on a copy: replaces the first binding of `key` in
place, appends a new binding otherwise (JavaScript assignment order). -/
def setF : List (String × Json) → String → Json → List (String × Json)
  | [], key, v => [(key, v)]
  | (k, w) :: fs, key, v =>
    if k = key then (k, v) :: fs else (k, w) :: setF fs key v

/-- Property access `o[key]`: `undefined` when absent. -/
def getF (fs : List (String × Json)) (key : String) : Json :=
  (lookupF fs key).getD (.undef)

/-- JavaScript truthiness (the model has no `NaN`). -/
def truthy : Json → Bool
  | .null => false
  | .undef => false
  | .bool b => b
  | .num n => n != 0
  | .str s => s ≠ ""
  | .arr _ => true
  | .obj _ => true

/-- The test `typeof x === "object"` (true for `null`, arrays, objects). -/
def typeofObject : Json → Bool
  | .null => true
  | .arr _ => true
  | .obj _ => true
  | _ => false

/-- `isJsonLike` (`part_011` lines 19-20): a non-null non-array object. -/
def isJsonLike : Json → Bool
  | .obj _ => true
  | _ => false

/-- Errors surfaced by the extension: the prefix-resolution failure, plus
the marker for an insufficient recursion bound (never reached from the
wrappers, by `pncAdequate`). -/
inductive ExtErr where
  | prefixNotDefined (model : String)
  | fuelExhausted
deriving DecidableEq

/-- Rendered message of the errors the source throws. -/
def errMessage : ExtErr → String
  | .prefixNotDefined m => "Prefix not defined or invalid for model \"" ++ m ++ "\"."
  | .fuelExhausted => "recursion bound exhausted"

/-- Configuration of `createKsuidExtension` (`part_011` lines 12-17),
plus the abstracted body stream and DMMF lookup described above. -/
structure ExtConfig where
  prefixMap : List (String × String)
  prefixFn : Option (String → String)
  processNested : Bool
  pkOf : String → String
  dmmf : String → String → Option String
  bodies : Nat → String

/-- Table lookup in the prefix map. -/
def lookupPm : List (String × String) → String → Option String
  | [], _ => none
  | (k, v) :: fs, key => if k = key then some v else lookupPm fs key

/-- `getPrefix` (`part_011` lines 91-99): table entry first; when that is
absent or the empty string (both falsy), the fallback function, if
present, is consulted. -/
def prefixOf (cfg : ExtConfig) (model : String) : Option String :=
  match lookupPm cfg.prefixMap model with
  | some s =>
    if s = "" then
      match cfg.prefixFn with
      | some f => some (f model)
      | none => some s
    else some s
  | none =>
    match cfg.prefixFn with
    | some f => some (f model)
    | none => none

/-- `ensurePrefixForModel` (`part_011` lines 101-109): missing or empty
resolution throws `Prefix not defined or invalid for model "<model>".` -/
def ensurePrefixForModel (cfg : ExtConfig) (model : String) : Except ExtErr String :=
  match prefixOf cfg model with
  | none => .error (.prefixNotDefined model)
  | some s => if s = "" then .error (.prefixNotDefined model) else .ok s

/-- `key.charAt(0).toUpperCase() + key.slice(1)`. -/
def capitalize (s : String) : String :=
  match s.data with
  | [] => ""
  | c :: cs => ⟨c.toUpper :: cs⟩

/-- `s.endsWith(suffix)`, spelled on the character list. -/
def strEndsWith (s suffix : String) : Bool :=
  suffix.data.isSuffixOf s.data

/-- `s.slice(0, -n)`: the string without its final `n` characters. -/
def strDropRight (s : String) (n : Nat) : String :=
  ⟨s.data.take (s.data.length - n)⟩

/-- `inferModelNameFromRelation` (`part_011` lines 148-176): hard-coded
overrides for `items`/`item` and `author` first, then the pluralization
heuristic over the capitalized field name. -/
def inferModelNameFromRelation (key : String) : String :=
  if key = "" then key
  else if key = "items" ∨ key = "item" then "OrderItem"
  else if key = "author" then "User"
  else
    let capitalized := capitalize key
    if strEndsWith capitalized "ies" ∧ capitalized.length > 3 then
      strDropRight capitalized 3 ++ "y"
    else if strEndsWith capitalized "s" ∧ capitalized.length > 1 then
      strDropRight capitalized 1
    else capitalized

/-- `resolveNestedModelInfo` (`part_011` lines 178-208): DMMF lookup if it
yields a usable name, else the heuristic; on resolution failure the single
retry `Item → OrderItem`; returns model name, prefix, and primary-key
field. -/
def resolveNestedModelInfo (cfg : ExtConfig) (key parentModel : String) :
    Except ExtErr (String × String × String) :=
  let m0 :=
    match cfg.dmmf parentModel key with
    | some s => if s = "" then inferModelNameFromRelation key else s
    | none => inferModelNameFromRelation key
  match ensurePrefixForModel cfg m0 with
  | .ok pfx => .ok (m0, pfx, cfg.pkOf m0)
  | .error e =>
    if m0 = "Item" then
      match ensurePrefixForModel cfg "OrderItem" with
      | .ok pfx => .ok ("OrderItem", pfx, cfg.pkOf "OrderItem")
      | .error e2 => .error e2
    else .error e

/-- `isMissingId` (`part_011` lines 22-41): absent, `undefined`, `null`,
or empty-string primary key counts as missing; any other value counts as
present. -/
def isMissingId (pk : String) (fs : List (String × Json)) : Bool :=
  match lookupF fs pk with
  | none => true
  | some .undef => true
  | some .null => true
  | some (.str s) => s.length == 0
  | some _ => false

/-- `withGeneratedId` (`part_011` lines 43-50): stamp a fresh prefixed
identifier when the primary key is missing; `k` indexes the body stream
and advances only when a body is actually drawn (the source only calls
`generateKSUID` in that branch). -/
def withGeneratedId (cfg : ExtConfig) (pfx pk : String)
    (fs : List (String × Json)) (k : Nat) : List (String × Json) × Nat :=
  if isMissingId pk fs then (setF fs pk (.str (pfx ++ cfg.bodies k)), k + 1)
  else (fs, k)

/-- Guard of the nested-create branch (`part_011` line 252):
`"create" in value && typeof value.create === "object"`. -/
def hasCreateKey (fs : List (String × Json)) : Bool :=
  match lookupF fs "create" with
  | some c => typeofObject c
  | none => false

/-- Guard of the nested-createMany branch (`part_011` lines 291-296). -/
def hasCreateManyKey (fs : List (String × Json)) : Bool :=
  match lookupF fs "createMany" with
  | some cm =>
    truthy cm && typeofObject cm &&
      (match cm with
       | .obj cfs => (lookupF cfs "data").isSome
       | _ => false)
  | none => false

/-- Guard of the nested-connectOrCreate branch (`part_011` lines 336-339). -/
def hasCocKey (fs : List (String × Json)) : Bool :=
  match lookupF fs "connectOrCreate" with
  | some cv => typeofObject cv
  | none => false

/-- Guard of the nested-upsert branch (`part_011` line 402). -/
def hasUpsertKey (fs : List (String × Json)) : Bool :=
  match lookupF fs "upsert" with
  | some uv => typeofObject uv
  | none => false

/-- Stamping pass over a processed nested-create array (`part_011`
lines 265-272): object entries get an identifier when missing, everything
else passes through; nothing is filtered. -/
def stampTop (cfg : ExtConfig) (pfx pk : String) :
    List Json → Nat → List Json × Nat
  | [], k => ([], k)
  | x :: xs, k =>
    match x with
    | .obj gs =>
      let p := withGeneratedId cfg pfx pk gs k
      let r := stampTop cfg pfx pk xs p.2
      (Json.obj p.1 :: r.1, r.2)
    | other =>
      let r := stampTop cfg pfx pk xs k
      (other :: r.1, r.2)

mutual

/-- `processNestedCreates` (`part_011` lines 213-468). Primitive and
falsy data is returned unchanged; arrays are mapped; objects are copied
with every entry processed by `pncEntry`. -/
def processNestedCreates (cfg : ExtConfig) :
    Nat → Json → String → Nat → Except ExtErr (Json × Nat)
  | 0, _, _, _ => .error .fuelExhausted
  | fuel + 1, d, pm, k =>
    match d with
    | .arr xs =>
      match pncList cfg fuel xs pm k with
      | .error e => .error e
      | .ok (ys, k') => .ok (.arr ys, k')
    | .obj fs =>
      match pncFields cfg fuel fs pm k with
      | .error e => .error e
      | .ok (gs, k') => .ok (.obj gs, k')
    | other => .ok (other, k)
termination_by structural fuel => fuel

/-- Element-wise recursion over an array (`part_011` lines 222-226 and
239-244). -/
def pncList (cfg : ExtConfig) :
    Nat → List Json → String → Nat → Except ExtErr (List Json × Nat)
  | _, [], _, k => .ok ([], k)
  | 0, _ :: _, _, _ => .error .fuelExhausted
  | fuel + 1, x :: xs, pm, k =>
    match processNestedCreates cfg fuel x pm k with
    | .error e => .error e
    | .ok (y, k1) =>
      match pncList cfg fuel xs pm k1 with
      | .error e => .error e
      | .ok (ys, k2) => .ok (y :: ys, k2)
termination_by structural fuel => fuel

/-- The `for (const [key, value] of Object.entries(processed))` loop
(`part_011` lines 234-465): each entry's value is rewritten in place,
keys and their order are preserved. -/
def pncFields (cfg : ExtConfig) :
    Nat → List (String × Json) → String → Nat → Except ExtErr (List (String × Json) × Nat)
  | _, [], _, k => .ok ([], k)
  | 0, _ :: _, _, _ => .error .fuelExhausted
  | fuel + 1, (key, v) :: fs, pm, k =>
    match pncEntry cfg fuel key v pm k with
    | .error e => .error e
    | .ok (w, k1) =>
      match pncFields cfg fuel fs pm k1 with
      | .error e => .error e
      | .ok (gs, k2) => .ok ((key, w) :: gs, k2)
termination_by structural fuel => fuel

/-- Body of the entries loop for one `(key, value)` pair: the branch
cascade create / createMany / connectOrCreate / upsert / blind recursion
of `part_011` lines 235-464. -/
def pncEntry (cfg : ExtConfig) :
    Nat → String → Json → String → Nat → Except ExtErr (Json × Nat)
  | 0, _, _, _, _ => .error .fuelExhausted
  | fuel + 1, key, v, pm, k =>
    if ¬ truthy v ∨ ¬ typeofObject v then .ok (v, k)
    else
      match v with
      | .arr xs =>
        match pncList cfg fuel xs pm k with
        | .error e => .error e
        | .ok (ys, k') => .ok (.arr ys, k')
      | .obj fs =>
        if hasCreateKey fs then
          match resolveNestedModelInfo cfg key pm with
          | .error e => .error e
          | .ok (mn, pfx, pk) =>
            match processNestedCreates cfg fuel (getF fs "create") mn k with
            | .error e => .error e
            | .ok (c', k1) =>
              match c' with
              | .arr ys =>
                let p := stampTop cfg pfx pk ys k1
                .ok (.obj (setF fs "create" (.arr p.1)), p.2)
              | .obj gs =>
                let p := withGeneratedId cfg pfx pk gs k1
                .ok (.obj (setF fs "create" (.obj p.1)), p.2)
              | other => .ok (.obj (setF fs "create" other), k1)
        else if hasCreateManyKey fs then
          match resolveNestedModelInfo cfg key pm with
          | .error e => .error e
          | .ok (mn, pfx, pk) =>
            match getF fs "createMany" with
            | .obj cfs =>
              match getF cfs "data" with
              | .arr items =>
                match pncCreateManyData cfg fuel items mn pfx pk k with
                | .error e => .error e
                | .ok (items', k1) =>
                  .ok (.obj (setF fs "createMany"
                    (.obj (setF cfs "data" (.arr items')))), k1)
              | _ => .ok (.obj fs, k)
            | _ => .ok (.obj fs, k)
        else if hasCocKey fs then
          match getF fs "connectOrCreate" with
          | .arr items =>
            match pncItemCreateList cfg fuel items key pm k with
            | .error e => .error e
            | .ok (items', k1) =>
              .ok (.obj (setF fs "connectOrCreate" (.arr items')), k1)
          | .obj cvfs =>
            if (lookupF cvfs "create").isSome then
              match resolveNestedModelInfo cfg key pm with
              | .error e => .error e
              | .ok (mn, pfx, pk) =>
                match processNestedCreates cfg fuel (getF cvfs "create") mn k with
                | .error e => .error e
                | .ok (pc, k1) =>
                  match pc with
                  | .obj pcfs =>
                    let p := withGeneratedId cfg pfx pk pcfs k1
                    .ok (.obj (setF fs "connectOrCreate"
                      (.obj (setF cvfs "create" (.obj p.1)))), p.2)
                  | _ => .ok (.obj fs, k1)
            else .ok (.obj fs, k)
          | _ => .ok (.obj fs, k)
        else if hasUpsertKey fs then
          match getF fs "upsert" with
          | .arr items =>
            match pncItemCreateList cfg fuel items key pm k with
            | .error e => .error e
            | .ok (items', k1) =>
              .ok (.obj (setF fs "upsert" (.arr items')), k1)
          | .obj uvfs =>
            if (lookupF uvfs "create").isSome then
              match resolveNestedModelInfo cfg key pm with
              | .error e => .error e
              | .ok (mn, pfx, pk) =>
                match processNestedCreates cfg fuel (getF uvfs "create") mn k with
                | .error e => .error e
                | .ok (pc, k1) =>
                  match pc with
                  | .obj pcfs =>
                    let p := withGeneratedId cfg pfx pk pcfs k1
                    .ok (.obj (setF fs "upsert"
                      (.obj (setF uvfs "create" (.obj p.1)))), p.2)
                  | _ => .ok (.obj fs, k1)
            else .ok (.obj fs, k)
          | _ => .ok (.obj fs, k)
        else
          match pncFields cfg fuel fs pm k with
          | .error e => .error e
          | .ok (gs, k') => .ok (.obj gs, k')
      | other => .ok (other, k)
termination_by structural fuel => fuel

/-- Nested-createMany data processing (`part_011` lines 304-321): null
and undefined entries are filtered out, the survivors recursively
processed and stamped. -/
def pncCreateManyData (cfg : ExtConfig) :
    Nat → List Json → String → String → String → Nat → Except ExtErr (List Json × Nat)
  | _, [], _, _, _, k => .ok ([], k)
  | 0, _ :: _, _, _, _, _ => .error .fuelExhausted
  | fuel + 1, x :: xs, mn, pfx, pk, k =>
    if isNullish x then pncCreateManyData cfg fuel xs mn pfx pk k
    else
      match processNestedCreates cfg fuel x mn k with
      | .error e => .error e
      | .ok (y, k1) =>
        let s : Json × Nat :=
          match y with
          | .obj gs =>
            let p := withGeneratedId cfg pfx pk gs k1
            (Json.obj p.1, p.2)
          | other => (other, k1)
        match pncCreateManyData cfg fuel xs mn pfx pk s.2 with
        | .error e => .error e
        | .ok (ys, k2) => .ok (s.1 :: ys, k2)
termination_by structural fuel => fuel

/-- Item mapping of the connectOrCreate and upsert array branches
(`part_011` lines 342-369 and 405-432, which are verbatim identical):
items that are objects with a `create` key have that side processed and
stamped; every other item passes through unchanged. -/
def pncItemCreateList (cfg : ExtConfig) :
    Nat → List Json → String → String → Nat → Except ExtErr (List Json × Nat)
  | _, [], _, _, k => .ok ([], k)
  | 0, _ :: _, _, _, _ => .error .fuelExhausted
  | fuel + 1, x :: xs, key, pm, k =>
    match x with
    | .obj xfs =>
      if (lookupF xfs "create").isSome then
        match resolveNestedModelInfo cfg key pm with
        | .error e => .error e
        | .ok (mn, pfx, pk) =>
          match processNestedCreates cfg fuel (getF xfs "create") mn k with
          | .error e => .error e
          | .ok (pc, k1) =>
            let s : Json × Nat :=
              match pc with
              | .obj pcfs =>
                let p := withGeneratedId cfg pfx pk pcfs k1
                (Json.obj (setF xfs "create" (.obj p.1)), p.2)
              | _ => (Json.obj xfs, k1)
            match pncItemCreateList cfg fuel xs key pm s.2 with
            | .error e => .error e
            | .ok (ys, k2) => .ok (s.1 :: ys, k2)
      else
        match pncItemCreateList cfg fuel xs key pm k with
        | .error e => .error e
        | .ok (ys, k2) => .ok (Json.obj xfs :: ys, k2)
    | other =>
      match pncItemCreateList cfg fuel xs key pm k with
      | .error e => .error e
      | .ok (ys, k2) => .ok (other :: ys, k2)
termination_by structural fuel => fuel

end

/-- The tree walk with its sufficient recursion bound (`pncAdequate`). -/
def pncTop (cfg : ExtConfig) (d : Json) (pm : String) (k : Nat) :
    Except ExtErr (Json × Nat) :=
  processNestedCreates cfg (jsize d) d pm k

/-- The `create` query handler (`part_011` lines 474-506). -/
def createHandler (cfg : ExtConfig) (model : String) (data : Json) (k : Nat) :
    Except ExtErr (Json × Nat) :=
  match ensurePrefixForModel cfg model with
  | .error e => .error e
  | .ok pfx =>
    let pk := cfg.pkOf model
    match data with
    | .undef => .ok (.undef, k)
    | .null => .ok (.null, k)
    | d =>
      let s : Json × Nat :=
        match d with
        | .obj fs =>
          let p := withGeneratedId cfg pfx pk fs k
          (Json.obj p.1, p.2)
        | other => (other, k)
      if cfg.processNested then
        match pncTop cfg s.1 model s.2 with
        | .error e => .error e
        | .ok (d2, k2) =>
          match d2 with
          | .obj gs =>
            let p := withGeneratedId cfg pfx pk gs k2
            .ok (Json.obj p.1, p.2)
          | other => .ok (other, k2)
      else .ok (s.1, s.2)

/-- Item loop of the `createMany` handler (`part_011` lines 523-551):
null and undefined entries are filtered out, survivors stamped, then
nested-processed and stamped again when nested processing is on. -/
def createManyItems (cfg : ExtConfig) (pfx pk model : String) :
    List Json → Nat → Except ExtErr (List Json × Nat)
  | [], k => .ok ([], k)
  | x :: xs, k =>
    if isNullish x then createManyItems cfg pfx pk model xs k
    else
      let s : Json × Nat :=
        match x with
        | .obj fs =>
          let p := withGeneratedId cfg pfx pk fs k
          (Json.obj p.1, p.2)
        | other => (other, k)
      if ¬ cfg.processNested then
        match createManyItems cfg pfx pk model xs s.2 with
        | .error e => .error e
        | .ok (ys, k2) => .ok (s.1 :: ys, k2)
      else
        match pncTop cfg s.1 model s.2 with
        | .error e => .error e
        | .ok (p, k2) =>
          let t : Json × Nat :=
            match p with
            | .obj gs =>
              let q := withGeneratedId cfg pfx pk gs k2
              (Json.obj q.1, q.2)
            | other => (other, k2)
          match createManyItems cfg pfx pk model xs t.2 with
          | .error e => .error e
          | .ok (ys, k3) => .ok (t.1 :: ys, k3)

/-- The `createMany` query handler (`part_011` lines 508-566; the
`createManyAndReturn` handler at lines 568-626 is verbatim identical). -/
def createManyHandler (cfg : ExtConfig) (model : String) (data : Json) (k : Nat) :
    Except ExtErr (Json × Nat) :=
  match ensurePrefixForModel cfg model with
  | .error e => .error e
  | .ok pfx =>
    let pk := cfg.pkOf model
    match data with
    | .undef => .ok (.undef, k)
    | .null => .ok (.null, k)
    | .arr xs =>
      match createManyItems cfg pfx pk model xs k with
      | .error e => .error e
      | .ok (ys, k1) => .ok (.arr ys, k1)
    | d =>
      if cfg.processNested then
        match pncTop cfg d model k with
        | .error e => .error e
        | .ok (p, k1) =>
          match p with
          | .obj gs =>
            let q := withGeneratedId cfg pfx pk gs k1
            .ok (Json.obj q.1, q.2)
          | other => .ok (other, k1)
      else .ok (d, k)

/-! ### Adequacy of the recursion bound -/

theorem jsize_pos (d : Json) : 1 ≤ jsize d := by
  cases d <;> simp [jsize]

theorem lookupF_jsize {fs : List (String × Json)} {key : String} {v : Json}
    (h : lookupF fs key = some v) : jsize v + 1 ≤ jsizeFields fs := by
  induction fs with
  | nil => simp [lookupF] at h
  | cons f fs ih =>
    obtain ⟨k0, v0⟩ := f
    simp only [lookupF] at h
    by_cases hk : k0 = key
    · rw [if_pos hk] at h
      cases h
      simp [jsizeFields]
      omega
    · rw [if_neg hk] at h
      have := ih h
      simp [jsizeFields]
      omega

theorem hasCreateKey_elim {fs : List (String × Json)} (h : hasCreateKey fs = true) :
    ∃ c, lookupF fs "create" = some c ∧ typeofObject c = true := by
  unfold hasCreateKey at h
  cases hl : lookupF fs "create" with
  | none => rw [hl] at h; simp at h
  | some c => rw [hl] at h; exact ⟨c, rfl, h⟩

theorem hasCreateManyKey_elim {fs : List (String × Json)} (h : hasCreateManyKey fs = true) :
    ∃ cfs, lookupF fs "createMany" = some (.obj cfs) ∧ (lookupF cfs "data").isSome := by
  unfold hasCreateManyKey at h
  cases hl : lookupF fs "createMany" with
  | none => rw [hl] at h; simp at h
  | some cm =>
    rw [hl] at h
    cases cm <;> simp_all

theorem hasCocKey_elim {fs : List (String × Json)} (h : hasCocKey fs = true) :
    ∃ cv, lookupF fs "connectOrCreate" = some cv ∧ typeofObject cv = true := by
  unfold hasCocKey at h
  cases hl : lookupF fs "connectOrCreate" with
  | none => rw [hl] at h; simp at h
  | some cv => rw [hl] at h; exact ⟨cv, rfl, h⟩

theorem hasUpsertKey_elim {fs : List (String × Json)} (h : hasUpsertKey fs = true) :
    ∃ uv, lookupF fs "upsert" = some uv ∧ typeofObject uv = true := by
  unfold hasUpsertKey at h
  cases hl : lookupF fs "upsert" with
  | none => rw [hl] at h; simp at h
  | some uv => rw [hl] at h; exact ⟨uv, rfl, h⟩

theorem ensurePrefixForModel_err {cfg : ExtConfig} {model : String} {e : ExtErr}
    (h : ensurePrefixForModel cfg model = .error e) : e = .prefixNotDefined model := by
  unfold ensurePrefixForModel at h
  split at h
  · cases h; rfl
  · split at h
    · cases h; rfl
    · cases h

theorem resolveNestedModelInfo_err {cfg : ExtConfig} {key pm : String} {e : ExtErr}
    (h : resolveNestedModelInfo cfg key pm = .error e) :
    ∃ m, e = .prefixNotDefined m := by
  unfold resolveNestedModelInfo at h
  dsimp only at h
  split at h
  · cases h
  · rename_i e1 he
    split at h
    · split at h
      · cases h
      · rename_i e2 he2
        cases h
        exact ⟨"OrderItem", ensurePrefixForModel_err he2⟩
    · cases h
      exact ⟨_, ensurePrefixForModel_err he⟩

/-- The recursion bound `jsize` is sufficient: no call starting from it
ever reports exhaustion. -/
theorem pncNoFuelError (cfg : ExtConfig) : ∀ fuel : Nat,
    (∀ d pm k, jsize d ≤ fuel →
      processNestedCreates cfg fuel d pm k ≠ .error .fuelExhausted) ∧
    (∀ xs pm k, jsizeList xs ≤ fuel →
      pncList cfg fuel xs pm k ≠ .error .fuelExhausted) ∧
    (∀ fs pm k, jsizeFields fs ≤ fuel →
      pncFields cfg fuel fs pm k ≠ .error .fuelExhausted) ∧
    (∀ key v pm k, jsize v ≤ fuel →
      pncEntry cfg fuel key v pm k ≠ .error .fuelExhausted) ∧
    (∀ xs mn pfx pk k, jsizeList xs ≤ fuel →
      pncCreateManyData cfg fuel xs mn pfx pk k ≠ .error .fuelExhausted) ∧
    (∀ xs key pm k, jsizeList xs ≤ fuel →
      pncItemCreateList cfg fuel xs key pm k ≠ .error .fuelExhausted) := by
  intro fuel
  induction fuel with
  | zero =>
    refine ⟨?_, ?_, ?_, ?_, ?_, ?_⟩
    · intro d pm k h
      have := jsize_pos d
      omega
    · intro xs pm k h
      cases xs with
      | nil => simp [pncList]
      | cons x xs => have := jsize_pos x; simp [jsizeList] at h
    · intro fs pm k h
      cases fs with
      | nil => simp [pncFields]
      | cons f fs =>
        obtain ⟨k0, v0⟩ := f
        have := jsize_pos v0
        simp [jsizeFields] at h
    · intro key v pm k h
      have := jsize_pos v
      omega
    · intro xs mn pfx pk k h
      cases xs with
      | nil => simp [pncCreateManyData]
      | cons x xs => have := jsize_pos x; simp [jsizeList] at h
    · intro xs key pm k h
      cases xs with
      | nil => simp [pncItemCreateList]
      | cons x xs => have := jsize_pos x; simp [jsizeList] at h
  | succ fuel ih =>
    obtain ⟨ihP, ihL, ihF, ihE, ihC, ihI⟩ := ih
    refine ⟨?_, ?_, ?_, ?_, ?_, ?_⟩
    -- processNestedCreates
    · intro d pm k h
      cases d with
      | arr xs =>
        have hx : jsizeList xs ≤ fuel := by simp [jsize] at h; omega
        simp only [processNestedCreates]
        cases hL : pncList cfg fuel xs pm k with
        | error e =>
          have := ihL xs pm k hx
          rw [hL] at this
          simp only [hL]
          simpa using this
        | ok r => simp [*]
      | obj fs =>
        have hx : jsizeFields fs ≤ fuel := by simp [jsize] at h; omega
        simp only [processNestedCreates]
        cases hL : pncFields cfg fuel fs pm k with
        | error e =>
          have := ihF fs pm k hx
          rw [hL] at this
          simp only [hL]
          simpa using this
        | ok r => simp [*]
      | null => simp [processNestedCreates]
      | undef => simp [processNestedCreates]
      | bool b => simp [processNestedCreates]
      | num n => simp [processNestedCreates]
      | str s => simp [processNestedCreates]
    -- pncList
    · intro xs pm k h
      cases xs with
      | nil => simp [pncList]
      | cons x xs =>
        simp only [jsizeList] at h
        have hx : jsize x ≤ fuel := by omega
        have hxs : jsizeList xs ≤ fuel := by omega
        simp only [pncList]
        cases hP : processNestedCreates cfg fuel x pm k with
        | error e =>
          have := ihP x pm k hx
          rw [hP] at this
          simp only [hP]
          simpa using this
        | ok r =>
          cases hL : pncList cfg fuel xs pm r.2 with
          | error e =>
            have := ihL xs pm r.2 hxs
            rw [hL] at this
            simp only [hL]
            simpa using this
          | ok r2 => simp [*]
    -- pncFields
    · intro fs pm k h
      cases fs with
      | nil => simp [pncFields]
      | cons f fs =>
        obtain ⟨key, v⟩ := f
        simp only [jsizeFields] at h
        have hv : jsize v ≤ fuel := by omega
        have hfs : jsizeFields fs ≤ fuel := by omega
        simp only [pncFields]
        cases hE : pncEntry cfg fuel key v pm k with
        | error e =>
          have := ihE key v pm k hv
          rw [hE] at this
          simp only [hE]
          simpa using this
        | ok r =>
          cases hF : pncFields cfg fuel fs pm r.2 with
          | error e =>
            have := ihF fs pm r.2 hfs
            rw [hF] at this
            simp only [hF]
            simpa using this
          | ok r2 => simp [*]
    -- pncEntry
    · intro key v pm k h
      by_cases hguard : ¬ truthy v ∨ ¬ typeofObject v
      · have hguard' : truthy v = false ∨ typeofObject v = false := by
          simpa using hguard
        simp [pncEntry, hguard']
      · cases v with
        | arr xs =>
          have hx : jsizeList xs ≤ fuel := by simp [jsize] at h; omega
          simp only [pncEntry, hguard, if_false]
          cases hL : pncList cfg fuel xs pm k with
          | error e =>
            have := ihL xs pm k hx
            rw [hL] at this
            simp only [hL]
            simpa using this
          | ok r => simp [*]
        | obj fs =>
          have hfs : jsizeFields fs ≤ fuel := by simp [jsize] at h; omega
          simp only [pncEntry, hguard, if_false]
          by_cases hck : hasCreateKey fs
          · rw [if_pos hck]
            obtain ⟨c, hlkc, _⟩ := hasCreateKey_elim hck
            have hc : jsize (getF fs "create") ≤ fuel := by
              have := lookupF_jsize hlkc
              simp [getF, hlkc]
              omega
            cases hR : resolveNestedModelInfo cfg key pm with
            | error e =>
              obtain ⟨m, rfl⟩ := resolveNestedModelInfo_err hR
              simp
            | ok info =>
              obtain ⟨mn, pfx, pk⟩ := info
              cases hP : processNestedCreates cfg fuel (getF fs "create") mn k with
              | error e =>
                have := ihP (getF fs "create") mn k hc
                rw [hP] at this
                simp only [hP]
                simpa using this
              | ok r =>
                obtain ⟨c', k1⟩ := r
                cases c' <;> simp [*]
          · rw [if_neg hck]
            by_cases hcm : hasCreateManyKey fs
            · rw [if_pos hcm]
              obtain ⟨cfs, hlcm, hdata⟩ := hasCreateManyKey_elim hcm
              cases hR : resolveNestedModelInfo cfg key pm with
              | error e =>
                obtain ⟨m, rfl⟩ := resolveNestedModelInfo_err hR
                simp
              | ok info =>
                obtain ⟨mn, pfx, pk⟩ := info
                rw [show getF fs "createMany" = .obj cfs by simp [getF, hlcm]]
                dsimp only
                obtain ⟨dataJ, hlkd⟩ := Option.isSome_iff_exists.mp hdata
                rw [show getF cfs "data" = dataJ by simp [getF, hlkd]]
                cases dataJ with
                | arr items =>
                  have hi : jsizeList items ≤ fuel := by
                    have h1 := lookupF_jsize hlcm
                    have h2 := lookupF_jsize hlkd
                    simp [jsize] at h1 h2
                    omega
                  cases hC : pncCreateManyData cfg fuel items mn pfx pk k with
                  | error e =>
                    have := ihC items mn pfx pk k hi
                    rw [hC] at this
                    simp only [hC]
                    simpa using this
                  | ok r => simp [*]
                | null => simp
                | undef => simp
                | bool b => simp
                | num n => simp
                | str s => simp
                | obj o => simp
            · rw [if_neg hcm]
              by_cases hco : hasCocKey fs
              · rw [if_pos hco]
                obtain ⟨cv, hlcv, htcv⟩ := hasCocKey_elim hco
                rw [show getF fs "connectOrCreate" = cv by simp [getF, hlcv]]
                have hcvsize := lookupF_jsize hlcv
                cases cv with
                | arr items =>
                  have hi : jsizeList items ≤ fuel := by
                    simp [jsize] at hcvsize
                    omega
                  cases hI : pncItemCreateList cfg fuel items key pm k with
                  | error e =>
                    have := ihI items key pm k hi
                    rw [hI] at this
                    simp only [hI]
                    simpa using this
                  | ok r => simp [*]
                | obj cvfs =>
                  dsimp only
                  by_cases hsome : (lookupF cvfs "create").isSome
                  · rw [if_pos hsome]
                    obtain ⟨c, hlkc⟩ := Option.isSome_iff_exists.mp hsome
                    have hc : jsize (getF cvfs "create") ≤ fuel := by
                      have h2 := lookupF_jsize hlkc
                      simp [jsize] at hcvsize
                      simp [getF, hlkc]
                      omega
                    cases hR : resolveNestedModelInfo cfg key pm with
                    | error e =>
                      obtain ⟨m, rfl⟩ := resolveNestedModelInfo_err hR
                      simp
                    | ok info =>
                      obtain ⟨mn, pfx, pk⟩ := info
                      cases hP : processNestedCreates cfg fuel (getF cvfs "create") mn k with
                      | error e =>
                        have := ihP (getF cvfs "create") mn k hc
                        rw [hP] at this
                        simp only [hP]
                        simpa using this
                      | ok r =>
                        obtain ⟨pc, k1⟩ := r
                        cases pc <;> simp [*]
                  · rw [if_neg hsome]
                    simp
                | null => simp
                | undef => simp [typeofObject] at htcv
                | bool b => simp [typeofObject] at htcv
                | num n => simp [typeofObject] at htcv
                | str s => simp [typeofObject] at htcv
              · rw [if_neg hco]
                by_cases hup : hasUpsertKey fs
                · rw [if_pos hup]
                  obtain ⟨uv, hluv, htuv⟩ := hasUpsertKey_elim hup
                  rw [show getF fs "upsert" = uv by simp [getF, hluv]]
                  have huvsize := lookupF_jsize hluv
                  cases uv with
                  | arr items =>
                    have hi : jsizeList items ≤ fuel := by
                      simp [jsize] at huvsize
                      omega
                    cases hI : pncItemCreateList cfg fuel items key pm k with
                    | error e =>
                      have := ihI items key pm k hi
                      rw [hI] at this
                      simp only [hI]
                      simpa using this
                    | ok r => simp [*]
                  | obj uvfs =>
                    dsimp only
                    by_cases hsome : (lookupF uvfs "create").isSome
                    · rw [if_pos hsome]
                      obtain ⟨c, hlkc⟩ := Option.isSome_iff_exists.mp hsome
                      have hc : jsize (getF uvfs "create") ≤ fuel := by
                        have h2 := lookupF_jsize hlkc
                        simp [jsize] at huvsize
                        simp [getF, hlkc]
                        omega
                      cases hR : resolveNestedModelInfo cfg key pm with
                      | error e =>
                        obtain ⟨m, rfl⟩ := resolveNestedModelInfo_err hR
                        simp
                      | ok info =>
                        obtain ⟨mn, pfx, pk⟩ := info
                        cases hP : processNestedCreates cfg fuel (getF uvfs "create") mn k with
                        | error e =>
                          have := ihP (getF uvfs "create") mn k hc
                          rw [hP] at this
                          simp only [hP]
                          simpa using this
                        | ok r =>
                          obtain ⟨pc, k1⟩ := r
                          cases pc <;> simp [*]
                    · rw [if_neg hsome]
                      simp
                  | null => simp
                  | undef => simp [typeofObject] at htuv
                  | bool b => simp [typeofObject] at htuv
                  | num n => simp [typeofObject] at htuv
                  | str s => simp [typeofObject] at htuv
                · rw [if_neg hup]
                  cases hF : pncFields cfg fuel fs pm k with
                  | error e =>
                    have := ihF fs pm k hfs
                    rw [hF] at this
                    simp only [hF]
                    simpa using this
                  | ok r => simp [*]
        | null => simp [truthy] at hguard
        | undef => simp [truthy] at hguard
        | bool b => simp [typeofObject] at hguard
        | num n => simp [typeofObject] at hguard
        | str s => simp [typeofObject] at hguard
    -- pncCreateManyData
    · intro xs mn pfx pk k h
      cases xs with
      | nil => simp [pncCreateManyData]
      | cons x xs =>
        simp only [jsizeList] at h
        have hx : jsize x ≤ fuel := by omega
        have hxs : jsizeList xs ≤ fuel := by omega
        simp only [pncCreateManyData]
        by_cases hn : isNullish x
        · simp only [hn, if_true]
          have := ihC xs mn pfx pk k hxs
          exact this
        · simp only [hn, if_false]
          cases hP : processNestedCreates cfg fuel x mn k with
          | error e =>
            have := ihP x mn k hx
            rw [hP] at this
            simp only [hP]
            simpa using this
          | ok r =>
            obtain ⟨y, k1⟩ := r
            cases y with
            | obj gs =>
              cases hC : pncCreateManyData cfg fuel xs mn pfx pk
                  (withGeneratedId cfg pfx pk gs k1).2 with
              | error e =>
                have := ihC xs mn pfx pk (withGeneratedId cfg pfx pk gs k1).2 hxs
                rw [hC] at this
                simp only [hC]
                simpa using this
              | ok r2 => simp [*]
            | null =>
              cases hC : pncCreateManyData cfg fuel xs mn pfx pk k1 with
              | error e =>
                have := ihC xs mn pfx pk k1 hxs
                rw [hC] at this
                simp only [hC]
                simpa using this
              | ok r2 => simp [*]
            | undef =>
              cases hC : pncCreateManyData cfg fuel xs mn pfx pk k1 with
              | error e =>
                have := ihC xs mn pfx pk k1 hxs
                rw [hC] at this
                simp only [hC]
                simpa using this
              | ok r2 => simp [*]
            | bool b =>
              cases hC : pncCreateManyData cfg fuel xs mn pfx pk k1 with
              | error e =>
                have := ihC xs mn pfx pk k1 hxs
                rw [hC] at this
                simp only [hC]
                simpa using this
              | ok r2 => simp [*]
            | num n =>
              cases hC : pncCreateManyData cfg fuel xs mn pfx pk k1 with
              | error e =>
                have := ihC xs mn pfx pk k1 hxs
                rw [hC] at this
                simp only [hC]
                simpa using this
              | ok r2 => simp [*]
            | str s =>
              cases hC : pncCreateManyData cfg fuel xs mn pfx pk k1 with
              | error e =>
                have := ihC xs mn pfx pk k1 hxs
                rw [hC] at this
                simp only [hC]
                simpa using this
              | ok r2 => simp [*]
            | arr ys =>
              cases hC : pncCreateManyData cfg fuel xs mn pfx pk k1 with
              | error e =>
                have := ihC xs mn pfx pk k1 hxs
                rw [hC] at this
                simp only [hC]
                simpa using this
              | ok r2 => simp [*]
    -- pncItemCreateList
    · intro xs key pm k h
      cases xs with
      | nil => simp [pncItemCreateList]
      | cons x xs =>
        simp only [jsizeList] at h
        have hx : jsize x ≤ fuel := by omega
        have hxs : jsizeList xs ≤ fuel := by omega
        simp only [pncItemCreateList]
        cases x with
        | obj xfs =>
          dsimp only
          by_cases hsome : (lookupF xfs "create").isSome
          · rw [if_pos hsome]
            obtain ⟨c, hlkc⟩ := Option.isSome_iff_exists.mp hsome
            have hc : jsize (getF xfs "create") ≤ fuel := by
              have h2 := lookupF_jsize hlkc
              simp [jsize] at hx
              simp [getF, hlkc]
              omega
            cases hR : resolveNestedModelInfo cfg key pm with
            | error e =>
              obtain ⟨m, rfl⟩ := resolveNestedModelInfo_err hR
              simp
            | ok info =>
              obtain ⟨mn, pfx, pk⟩ := info
              cases hP : processNestedCreates cfg fuel (getF xfs "create") mn k with
              | error e =>
                have := ihP (getF xfs "create") mn k hc
                rw [hP] at this
                simp only [hP]
                simpa using this
              | ok r =>
                obtain ⟨pc, k1⟩ := r
                simp only [hP]
                cases pc with
                | obj pcfs =>
                  cases hI : pncItemCreateList cfg fuel xs key pm
                      (withGeneratedId cfg pfx pk pcfs k1).2 with
                  | error e =>
                    have := ihI xs key pm (withGeneratedId cfg pfx pk pcfs k1).2 hxs
                    rw [hI] at this
                    simp only [hI]
                    simpa using this
                  | ok r2 => simp [*]
                | null =>
                  cases hI : pncItemCreateList cfg fuel xs key pm k1 with
                  | error e =>
                    have := ihI xs key pm k1 hxs
                    rw [hI] at this
                    simp only [hI]
                    simpa using this
                  | ok r2 => simp [*]
                | undef =>
                  cases hI : pncItemCreateList cfg fuel xs key pm k1 with
                  | error e =>
                    have := ihI xs key pm k1 hxs
                    rw [hI] at this
                    simp only [hI]
                    simpa using this
                  | ok r2 => simp [*]
                | bool b =>
                  cases hI : pncItemCreateList cfg fuel xs key pm k1 with
                  | error e =>
                    have := ihI xs key pm k1 hxs
                    rw [hI] at this
                    simp only [hI]
                    simpa using this
                  | ok r2 => simp [*]
                | num n =>
                  cases hI : pncItemCreateList cfg fuel xs key pm k1 with
                  | error e =>
                    have := ihI xs key pm k1 hxs
                    rw [hI] at this
                    simp only [hI]
                    simpa using this
                  | ok r2 => simp [*]
                | str s =>
                  cases hI : pncItemCreateList cfg fuel xs key pm k1 with
                  | error e =>
                    have := ihI xs key pm k1 hxs
                    rw [hI] at this
                    simp only [hI]
                    simpa using this
                  | ok r2 => simp [*]
                | arr ys =>
                  cases hI : pncItemCreateList cfg fuel xs key pm k1 with
                  | error e =>
                    have := ihI xs key pm k1 hxs
                    rw [hI] at this
                    simp only [hI]
                    simpa using this
                  | ok r2 => simp [*]
          · rw [if_neg hsome]
            cases hI : pncItemCreateList cfg fuel xs key pm k with
            | error e =>
              have := ihI xs key pm k hxs
              rw [hI] at this
              simp only [hI]
              simpa using this
            | ok r2 => simp [*]
        | null =>
          cases hI : pncItemCreateList cfg fuel xs key pm k with
          | error e =>
            have := ihI xs key pm k hxs
            rw [hI] at this
            simp only [hI]
            simpa using this
          | ok r2 => simp [*]
        | undef =>
          cases hI : pncItemCreateList cfg fuel xs key pm k with
          | error e =>
            have := ihI xs key pm k hxs
            rw [hI] at this
            simp only [hI]
            simpa using this
          | ok r2 => simp [*]
        | bool b =>
          cases hI : pncItemCreateList cfg fuel xs key pm k with
          | error e =>
            have := ihI xs key pm k hxs
            rw [hI] at this
            simp only [hI]
            simpa using this
          | ok r2 => simp [*]
        | num n =>
          cases hI : pncItemCreateList cfg fuel xs key pm k with
          | error e =>
            have := ihI xs key pm k hxs
            rw [hI] at this
            simp only [hI]
            simpa using this
          | ok r2 => simp [*]
        | str s =>
          cases hI : pncItemCreateList cfg fuel xs key pm k with
          | error e =>
            have := ihI xs key pm k hxs
            rw [hI] at this
            simp only [hI]
            simpa using this
          | ok r2 => simp [*]
        | arr ys =>
          cases hI : pncItemCreateList cfg fuel xs key pm k with
          | error e =>
            have := ihI xs key pm k hxs
            rw [hI] at this
            simp only [hI]
            simpa using this
          | ok r2 => simp [*]

/-- The wrapped tree walk never runs out of its bound. -/
theorem pncTop_no_fuel (cfg : ExtConfig) (d : Json) (pm : String) (k : Nat) :
    pncTop cfg d pm k ≠ .error .fuelExhausted :=
  (pncNoFuelError cfg (jsize d)).1 d pm k le_rfl

theorem createManyItems_no_fuel (cfg : ExtConfig) (pfx pk model : String) :
    ∀ xs k, createManyItems cfg pfx pk model xs k ≠ .error .fuelExhausted := by
  intro xs
  induction xs with
  | nil => intro k h; simp [createManyItems] at h
  | cons x xs ih =>
    intro k h
    simp only [createManyItems] at h
    split at h
    · exact ih _ h
    · split at h
      · split at h
        · rename_i e hM
          cases h
          exact ih _ hM
        · cases h
      · split at h
        · rename_i e hT
          cases h
          exact pncTop_no_fuel cfg _ model _ hT
        · split at h
          · rename_i e hM
            cases h
            exact ih _ hM
          · cases h

theorem createHandler_no_fuel (cfg : ExtConfig) (model : String) (data : Json)
    (k : Nat) : createHandler cfg model data k ≠ .error .fuelExhausted := by
  intro h
  unfold createHandler at h
  split at h
  · rename_i e0 hE
    cases h
    have := ensurePrefixForModel_err hE
    cases this
  · split at h
    · simp at h
    · simp at h
    · dsimp only at h
      split at h
      · split at h
        · rename_i e0 hT
          cases h
          exact pncTop_no_fuel cfg _ model _ hT
        · split at h <;> simp at h
      · simp at h

theorem createManyHandler_no_fuel (cfg : ExtConfig) (model : String) (data : Json)
    (k : Nat) : createManyHandler cfg model data k ≠ .error .fuelExhausted := by
  intro h
  unfold createManyHandler at h
  split at h
  · rename_i e0 hE
    cases h
    have := ensurePrefixForModel_err hE
    cases this
  · split at h
    · simp at h
    · simp at h
    · dsimp only at h
      split at h
      · rename_i e0 hM
        cases h
        exact createManyItems_no_fuel cfg _ _ model _ _ hM
      · simp at h
    · dsimp only at h
      split at h
      · split at h
        · rename_i e0 hT
          cases h
          exact pncTop_no_fuel cfg _ model _ hT
        · split at h <;> simp at h
      · simp at h

/-- Every error the `create` handler reports is a prefix-resolution
failure carrying the source's message. -/
theorem createHandler_err {cfg : ExtConfig} {model : String} {data : Json}
    {k : Nat} {e : ExtErr} (h : createHandler cfg model data k = .error e) :
    ∃ m, e = .prefixNotDefined m ∧
      errMessage e = "Prefix not defined or invalid for model \"" ++ m ++ "\"." := by
  cases e with
  | fuelExhausted => exact absurd h (createHandler_no_fuel cfg model data k)
  | prefixNotDefined m => exact ⟨m, rfl, rfl⟩

/-- Every error the `createMany` handler reports is a prefix-resolution
failure carrying the source's message. -/
theorem createManyHandler_err {cfg : ExtConfig} {model : String} {data : Json}
    {k : Nat} {e : ExtErr} (h : createManyHandler cfg model data k = .error e) :
    ∃ m, e = .prefixNotDefined m ∧
      errMessage e = "Prefix not defined or invalid for model \"" ++ m ++ "\"." := by
  cases e with
  | fuelExhausted => exact absurd h (createManyHandler_no_fuel cfg model data k)
  | prefixNotDefined m => exact ⟨m, rfl, rfl⟩

/-! ### C7: relation-name inference -/

/-- The inference rule exactly as C7 words it: capitalize the first
letter; `ies` (length over 3) becomes `y`; else a trailing `s` (length
over 1) is dropped; otherwise the capitalized name is kept as-is. -/
def claimInferRule (key : String) : String :=
  let capitalized := capitalize key
  if strEndsWith capitalized "ies" ∧ capitalized.length > 3 then
    strDropRight capitalized 3 ++ "y"
  else if strEndsWith capitalized "s" ∧ capitalized.length > 1 then
    strDropRight capitalized 1
  else capitalized

/-- C7 counterexample: for the relation field name `items` the code's
inference returns the hard-coded override `OrderItem`, not the `Item`
that the claimed capitalize-and-singularize rule computes (`author`
likewise gives `User` rather than `Author`). -/
theorem c7_counterexample :
    inferModelNameFromRelation "items" = "OrderItem" ∧
      claimInferRule "items" = "Item" ∧
      inferModelNameFromRelation "items" ≠ claimInferRule "items" ∧
      inferModelNameFromRelation "author" = "User" ∧
      claimInferRule "author" = "Author" := by
  refine ⟨rfl, by decide, by decide, rfl, by decide⟩

/-- C7 amended: the inferred entity-type name follows the claimed
capitalization and pluralization rules for every relation field name
except the hard-coded overrides, which are consulted first: `items` and
`item` map to `OrderItem`, and `author` maps to `User`. -/
theorem c7_infer_amended (key : String) :
    inferModelNameFromRelation key =
      if key = "items" ∨ key = "item" then "OrderItem"
      else if key = "author" then "User"
      else claimInferRule key := by
  by_cases h0 : key = ""
  · subst h0
    decide
  · by_cases h1 : key = "items" ∨ key = "item"
    · rw [if_pos h1]
      unfold inferModelNameFromRelation
      rw [if_neg h0, if_pos h1]
    · rw [if_neg h1]
      by_cases h2 : key = "author"
      · rw [if_pos h2]
        unfold inferModelNameFromRelation
        rw [if_neg h0, if_neg h1, if_pos h2]
      · rw [if_neg h2]
        unfold inferModelNameFromRelation claimInferRule
        rw [if_neg h0, if_neg h1, if_neg h2]

/-! ### C9: configuration validation -/

/-- A JavaScript value handed to `createKsuidExtension` as `prefixMap`;
only its shape matters to the validation check. -/
inductive PrefixMapArg where
  | undef
  | null
  | bool (b : Bool)
  | num (n : Int)
  | str (s : String)
  | fn
  | arr (len : Nat)
  | obj (entries : List (String × String))

/-- JavaScript truthiness of the argument. -/
def argTruthy : PrefixMapArg → Bool
  | .undef => false
  | .null => false
  | .bool b => b
  | .num n => n != 0
  | .str s => s ≠ ""
  | .fn => true
  | .arr _ => true
  | .obj _ => true

/-- `typeof` of the argument. -/
def argTypeof : PrefixMapArg → String
  | .undef => "undefined"
  | .null => "object"
  | .bool _ => "boolean"
  | .num _ => "number"
  | .str _ => "string"
  | .fn => "function"
  | .arr _ => "object"
  | .obj _ => "object"

/-- `Array.isArray` of the argument. -/
def argIsArray : PrefixMapArg → Bool
  | .arr _ => true
  | _ => false

/-- The validation performed once at setup by `createKsuidExtension`
(`part_011` lines 73-76, identical in every variant of the extension):
`if (!prefixMap || typeof prefixMap !== "object" || Array.isArray(prefixMap))
throw new Error("A valid prefixMap must be provided.")`. -/
def validatePrefixMap (v : PrefixMapArg) : Except String Unit :=
  if ¬ argTruthy v ∨ argTypeof v ≠ "object" ∨ argIsArray v then
    .error "A valid prefixMap must be provided."
  else .ok ()

/-- C9. Setup validation throws exactly the message
`A valid prefixMap must be provided.` precisely when the prefix table is
missing (`null` or `undefined`), not an object (`typeof` differs from
`"object"`), or an array; every plain object passes. -/
theorem c9_config_validation :
    (∀ v, validatePrefixMap v = .error "A valid prefixMap must be provided."
        ↔ (v = .null ∨ v = .undef ∨ argTypeof v ≠ "object" ∨ argIsArray v = true)) ∧
      (∀ entries, validatePrefixMap (.obj entries) = .ok ()) := by
  constructor
  · intro v
    cases v <;> simp [validatePrefixMap, argTruthy, argTypeof, argIsArray]
  · intro entries
    simp [validatePrefixMap, argTruthy, argTypeof, argIsArray]

/-! ### C3: identifier preservation at every depth

`Pres pk input output` relates a payload to its rewritten form. On
objects it says: every field of the input is still present under its key
in the output, with a related value; since a related value of a
non-missing primitive is that primitive itself, a non-empty string
stored under the primary key can never be altered or removed, at any
depth (`pres_id_lookup`). A missing primary-key slot (`undefined`,
`null`, `""`) may become a fresh non-empty string; array entries may
only disappear when they are `null`/`undefined` (the createMany
filters). The `obj` constructor carries an explicit witness function
`F` for the rewritten field values so the inductive stays strictly
positive; `pres_obj_of`/`pres_obj_elim` restore the existential view. -/

/-- A value the rewrite treats as a missing identifier: `undefined`,
`null`, or the empty string (the three cases of `isMissingId` once the
key is present). -/
def isMissingVal : Json → Bool
  | .undef => true
  | .null => true
  | .str s => s.length == 0
  | _ => false

/-- Primitive (non-array, non-object) values. -/
def isPrimB : Json → Bool
  | .arr _ => false
  | .obj _ => false
  | _ => true

theorem str_missing_empty {s : String} (h : isMissingVal (.str s) = true) :
    s = "" := by
  cases s with
  | mk data =>
    simp [isMissingVal, String.length] at h
    cases data with
    | nil => rfl
    | cons c cs => simp at h

inductive Pres (pk : String) : Json → Json → Prop where
  | primRefl (a : Json) : isPrimB a = true → Pres pk a a
  | primStamp (a : Json) (s : String) : isMissingVal a = true → s ≠ "" →
      Pres pk a (.str s)
  | arrNil : Pres pk (.arr []) (.arr [])
  | arrCons {x y : Json} {xs ys : List Json} : Pres pk x y →
      Pres pk (.arr xs) (.arr ys) → Pres pk (.arr (x :: xs)) (.arr (y :: ys))
  | arrSkip {x : Json} {xs ys : List Json} : isNullish x = true →
      Pres pk (.arr xs) (.arr ys) → Pres pk (.arr (x :: xs)) (.arr ys)
  | obj {fs gs : List (String × Json)} (F : String → Json → Json) :
      (∀ key v, lookupF fs key = some v → lookupF gs key = some (F key v)) →
      (∀ key v, lookupF fs key = some v → Pres pk v (F key v)) →
      Pres pk (.obj fs) (.obj gs)

theorem pres_obj_of {pk : String} {fs gs : List (String × Json)}
    (h : ∀ key v, lookupF fs key = some v →
      ∃ w, lookupF gs key = some w ∧ Pres pk v w) :
    Pres pk (.obj fs) (.obj gs) := by
  classical
  refine .obj
    (fun key v => if hl : lookupF fs key = some v then (h key v hl).choose else .undef)
    ?_ ?_
  · intro key v hl
    simp only [dif_pos hl]
    exact (h key v hl).choose_spec.1
  · intro key v hl
    simp only [dif_pos hl]
    exact (h key v hl).choose_spec.2

theorem pres_obj_elim {pk : String} {fs gs : List (String × Json)}
    (h : Pres pk (.obj fs) (.obj gs)) :
    ∀ key v, lookupF fs key = some v →
      ∃ w, lookupF gs key = some w ∧ Pres pk v w := by
  cases h with
  | primRefl _ hp => simp [isPrimB] at hp
  | obj F hmem hrel =>
    intro key v hl
    exact ⟨F key v, hmem key v hl, hrel key v hl⟩

/-- `Pres` is reflexive. -/
theorem pres_refl (pk : String) : ∀ d, Pres pk d d := by
  have main : ∀ n d, jsize d ≤ n → Pres pk d d := by
    intro n
    induction n with
    | zero =>
      intro d h
      have := jsize_pos d
      omega
    | succ n ih =>
      intro d h
      cases d with
      | arr xs =>
        have harr : ∀ ys, jsizeList ys ≤ n → Pres pk (.arr ys) (.arr ys) := by
          intro ys
          induction ys with
          | nil => intro _; exact .arrNil
          | cons y ys ihy =>
            intro hy
            simp only [jsizeList] at hy
            exact .arrCons (ih y (by omega)) (ihy (by omega))
        exact harr xs (by simp [jsize] at h; omega)
      | obj fs =>
        refine pres_obj_of ?_
        intro key v hl
        refine ⟨v, hl, ih v ?_⟩
        have := lookupF_jsize hl
        simp [jsize] at h
        omega
      | null => exact .primRefl _ rfl
      | undef => exact .primRefl _ rfl
      | bool b => exact .primRefl _ rfl
      | num m => exact .primRefl _ rfl
      | str s => exact .primRefl _ rfl
  intro d
  exact main (jsize d) d le_rfl

/-- A related value of a non-missing primitive is that primitive. -/
theorem pres_prim_eq {pk : String} {v w : Json} (h : Pres pk v w)
    (hprim : isPrimB v = true) (hmv : isMissingVal v = false) : w = v := by
  cases h with
  | primRefl => rfl
  | primStamp a s hm _ => rw [hm] at hmv; cases hmv
  | arrNil => simp [isPrimB] at hprim
  | arrCons _ _ => simp [isPrimB] at hprim
  | arrSkip _ _ => simp [isPrimB] at hprim
  | obj F _ _ => simp [isPrimB] at hprim

/-- A related value of a missing primitive is it, or a non-empty string. -/
theorem pres_missing {pk : String} {v w : Json} (h : Pres pk v w)
    (hmv : isMissingVal v = true) : w = v ∨ ∃ s, w = .str s ∧ s ≠ "" := by
  cases h with
  | primRefl => exact .inl rfl
  | primStamp a s _ hs => exact .inr ⟨s, rfl, hs⟩
  | arrNil => exact .inl rfl
  | arrCons _ _ => simp [isMissingVal] at hmv
  | arrSkip _ _ => simp [isMissingVal] at hmv
  | obj F _ _ => simp [isMissingVal] at hmv

/-- If the output side is nullish, the input was that same value. -/
theorem pres_nullish_eq {pk : String} {x y : Json} (h : Pres pk x y)
    (hn : isNullish y = true) : x = y := by
  cases h with
  | primRefl => rfl
  | primStamp a s _ _ => simp [isNullish] at hn
  | arrNil => rfl
  | arrCons _ _ => simp [isNullish] at hn
  | arrSkip _ _ => simp [isNullish] at hn
  | obj F _ _ => simp [isNullish] at hn

/-- Prepending a nullish element on the input side preserves `Pres`. -/
theorem pres_arr_skip {pk : String} {x c : Json} {xs : List Json}
    (hn : isNullish x = true) (h : Pres pk (.arr xs) c) :
    Pres pk (.arr (x :: xs)) c := by
  cases h with
  | primRefl _ hp => simp [isPrimB] at hp
  | primStamp _ _ hm _ => simp [isMissingVal] at hm
  | arrNil => exact .arrSkip hn .arrNil
  | arrCons h1 h2 => exact .arrSkip hn (.arrCons h1 h2)
  | arrSkip hn2 h2 => exact .arrSkip hn (.arrSkip hn2 h2)

/-- `Pres` composes. -/
theorem pres_trans {pk : String} : ∀ {a b c : Json},
    Pres pk a b → Pres pk b c → Pres pk a c := by
  have main : ∀ n, ∀ a b c : Json, jsize a ≤ n →
      Pres pk a b → Pres pk b c → Pres pk a c := by
    intro n
    induction n with
    | zero =>
      intro a _ _ h _ _
      have := jsize_pos a
      omega
    | succ n ih =>
      intro a b c ha h1 h2
      cases h1 with
      | primRefl _ hp => exact h2
      | primStamp a0 s hm hs =>
        cases h2 with
        | primRefl _ _ => exact .primStamp _ s hm hs
        | primStamp _ s2 hm2 hs2 => exact absurd (str_missing_empty hm2) hs
      | arrNil =>
        cases h2 with
        | primRefl _ hp => simp [isPrimB] at hp
        | primStamp _ _ hm _ => simp [isMissingVal] at hm
        | arrNil => exact .arrNil
      | arrCons hxy hrest =>
        rename_i x y xs ys
        have hx : jsize x ≤ n := by simp [jsize, jsizeList] at ha; omega
        have hxs : jsize (Json.arr xs) ≤ n := by
          simp [jsize, jsizeList] at ha ⊢; omega
        cases h2 with
        | primRefl _ hp => simp [isPrimB] at hp
        | primStamp _ _ hm _ => simp [isMissingVal] at hm
        | arrCons hyz hrest2 =>
          exact .arrCons (ih x y _ hx hxy hyz)
            (ih (.arr xs) (.arr ys) _ hxs hrest hrest2)
        | arrSkip hny hrest2 =>
          have hxy' : x = y := pres_nullish_eq hxy hny
          subst hxy'
          exact .arrSkip hny (ih (.arr xs) (.arr ys) _ hxs hrest hrest2)
      | arrSkip hnx hrest =>
        rename_i x xs ys
        have hxs : jsize (Json.arr xs) ≤ n := by
          simp [jsize, jsizeList] at ha ⊢; omega
        exact pres_arr_skip hnx (ih (.arr xs) (.arr ys) c hxs hrest h2)
      | obj F hmem hrel =>
        rename_i fs gs
        cases h2 with
        | primRefl _ hp => simp [isPrimB] at hp
        | primStamp _ _ hm _ => simp [isMissingVal] at hm
        | obj G hmem2 hrel2 =>
          refine pres_obj_of ?_
          intro key v hl
          have hw := hmem key v hl
          have hvw := hrel key v hl
          have hu := hmem2 key _ hw
          have hwu := hrel2 key _ hw
          refine ⟨G key (F key v), hu, ih v (F key v) (G key (F key v)) ?_ hvw hwu⟩
          have := lookupF_jsize hl
          simp [jsize] at ha
          omega
  intro a b c h1 h2
  exact main (jsize a) a b c le_rfl h1 h2

/-- The projection C3 cares about: a related rewrite returns every
non-empty string stored under the primary key unchanged. -/
theorem pres_id_lookup {pk : String} {fs gs : List (String × Json)}
    (h : Pres pk (.obj fs) (.obj gs)) :
    ∀ s : String, s ≠ "" → lookupF fs pk = some (.str s) →
      lookupF gs pk = some (.str s) := by
  intro s hs hl
  obtain ⟨w, hw, hvw⟩ := pres_obj_elim h pk _ hl
  have hmv : isMissingVal (Json.str s) = false := by
    cases hmv0 : isMissingVal (Json.str s) with
    | false => rfl
    | true => exact absurd (str_missing_empty hmv0) hs
  have : w = .str s := pres_prim_eq hvw rfl hmv
  rw [this] at hw
  exact hw

/-- A related rewrite never removes an object field. -/
theorem pres_mem {pk : String} {fs gs : List (String × Json)}
    (h : Pres pk (.obj fs) (.obj gs)) :
    ∀ key v, lookupF fs key = some v → ∃ w, lookupF gs key = some w := by
  intro key v hl
  obtain ⟨w, hw, _⟩ := pres_obj_elim h key v hl
  exact ⟨w, hw⟩

/-! Plumbing lemmas connecting `Pres` to the rewrite's building blocks. -/

theorem lookupF_setF_self (fs : List (String × Json)) (key : String) (v : Json) :
    lookupF (setF fs key v) key = some v := by
  induction fs with
  | nil => simp [setF, lookupF]
  | cons f fs ih =>
    obtain ⟨k0, w0⟩ := f
    by_cases hk : k0 = key
    · simp [setF, lookupF, hk]
    · simp [setF, lookupF, hk, ih]

theorem lookupF_setF_ne (fs : List (String × Json)) {key key2 : String}
    (hne : key2 ≠ key) (v : Json) :
    lookupF (setF fs key v) key2 = lookupF fs key2 := by
  induction fs with
  | nil => simp [setF, lookupF, Ne.symm hne]
  | cons f fs ih =>
    obtain ⟨k0, w0⟩ := f
    by_cases hk : k0 = key
    · have hne2 : k0 ≠ key2 := by rw [hk]; exact Ne.symm hne
      rw [setF, if_pos hk]
      simp only [lookupF]
      rw [if_neg hne2, if_neg hne2]
    · rw [setF, if_neg hk]
      simp only [lookupF]
      by_cases hk2 : k0 = key2
      · rw [if_pos hk2, if_pos hk2]
      · rw [if_neg hk2, if_neg hk2]
        exact ih

theorem string_length_zero {s : String} (h : s.length = 0) : s = "" := by
  cases s with
  | mk data =>
    cases data with
    | nil => rfl
    | cons c cs => simp [String.length] at h

theorem append_ne_empty {p b : String} (hp : p ≠ "") : p ++ b ≠ "" := by
  intro hc
  apply hp
  apply string_length_zero
  have := congrArg String.length hc
  simp [String.length_append] at this
  omega

/-- A successfully validated prefix is non-empty. -/
theorem ensure_ok_ne {cfg : ExtConfig} {model pfx : String}
    (h : ensurePrefixForModel cfg model = .ok pfx) : pfx ≠ "" := by
  unfold ensurePrefixForModel at h
  split at h
  · cases h
  · split at h
    · cases h
    · cases h
      assumption

/-- A successful nested resolution yields a non-empty prefix whose
primary-key component comes from the model's DMMF entry. -/
theorem resolve_ok_ne {cfg : ExtConfig} {key pm mn pfx pk : String}
    (h : resolveNestedModelInfo cfg key pm = .ok (mn, pfx, pk)) :
    pfx ≠ "" ∧ pk = cfg.pkOf mn := by
  unfold resolveNestedModelInfo at h
  dsimp only at h
  split at h
  · rename_i he
    cases h
    exact ⟨ensure_ok_ne he, rfl⟩
  · split at h
    · split at h
      · rename_i he2
        cases h
        exact ⟨ensure_ok_ne he2, rfl⟩
      · cases h
    · cases h

theorem getF_some {fs : List (String × Json)} {key : String} {v : Json}
    (h : getF fs key = v) (hv : v ≠ .undef) : lookupF fs key = some v := by
  unfold getF at h
  cases hl : lookupF fs key with
  | none => rw [hl] at h; simp at h; exact absurd h.symm hv
  | some w => rw [hl] at h; simp at h; rw [h]

theorem isMissingId_lookup {pk : String} {gs : List (String × Json)} {w : Json}
    (h : isMissingId pk gs = true) (hl : lookupF gs pk = some w) :
    isMissingVal w = true := by
  unfold isMissingId at h
  rw [hl] at h
  cases w <;> simp_all [isMissingVal]

/-- If the rewritten value is missing, the original was missing too. -/
theorem pres_missing_rev {pk : String} {v w : Json} (h : Pres pk v w)
    (hw : isMissingVal w = true) : isMissingVal v = true := by
  cases h with
  | primRefl => exact hw
  | primStamp a s hm hs => exact absurd (str_missing_empty hw) hs
  | arrNil => simp [isMissingVal] at hw
  | arrCons _ _ => simp [isMissingVal] at hw
  | arrSkip _ _ => simp [isMissingVal] at hw
  | obj F _ _ => simp [isMissingVal] at hw

/-- Rewriting one present field to a related value is a related rewrite. -/
theorem pres_setF {pk key0 : String} {fs : List (String × Json)} {old X : Json}
    (hl : lookupF fs key0 = some old) (hX : Pres pk old X) :
    Pres pk (.obj fs) (.obj (setF fs key0 X)) := by
  refine pres_obj_of ?_
  intro key v hv
  by_cases hk : key = key0
  · subst hk
    rw [hv] at hl
    injection hl with hvo
    subst hvo
    exact ⟨X, lookupF_setF_self _ _ _, hX⟩
  · exact ⟨v, by rw [lookupF_setF_ne fs hk]; exact hv, pres_refl pk v⟩

/-- Stamping a fresh identifier into a missing primary-key slot is a
related rewrite (composable on the right of any `Pres`). -/
theorem pres_stamp {pk pfx : String} {cfg : ExtConfig} (hpfx : pfx ≠ "")
    {a : Json} {gs : List (String × Json)} (h : Pres pk a (.obj gs)) (k : Nat) :
    Pres pk a (.obj (withGeneratedId cfg pfx pk gs k).1) := by
  unfold withGeneratedId
  by_cases hm : isMissingId pk gs = true
  case neg =>
    rw [if_neg hm]
    simpa using h
  case pos =>
    rw [if_pos hm]
    dsimp only
    cases h with
    | primRefl _ hp => simp [isPrimB] at hp
    | obj F hmem hrel =>
      rename_i afs
      refine pres_obj_of ?_
      intro key v hv
      by_cases hk : key = pk
      · subst hk
        have hw := hmem key v hv
        have hmv : isMissingVal (F key v) = true := isMissingId_lookup hm hw
        refine ⟨.str (pfx ++ cfg.bodies k), lookupF_setF_self gs key _, ?_⟩
        exact .primStamp v _ (pres_missing_rev (hrel key v hv) hmv) (append_ne_empty hpfx)
      · exact ⟨F key v, by rw [lookupF_setF_ne gs hk]; exact hmem key v hv,
          hrel key v hv⟩

/-- The post-pass stamping of a processed nested-create array is a
related rewrite. -/
theorem pres_stampTop {pk pfx : String} {cfg : ExtConfig} (hpfx : pfx ≠ "")
    {a : Json} {ys0 : List Json} (h : Pres pk a (.arr ys0)) (k : Nat) :
    Pres pk a (.arr (stampTop cfg pfx pk ys0 k).1) := by
  have main : ∀ {a b : Json}, Pres pk a b → ∀ ys k, b = .arr ys →
      Pres pk a (.arr (stampTop cfg pfx pk ys k).1) := by
    intro a b h
    induction h with
    | primRefl a hp =>
      intro ys k hb
      subst hb
      simp [isPrimB] at hp
    | primStamp a s hm hs =>
      intro ys k hb
      simp at hb
    | arrNil =>
      intro ys k hb
      injection hb with hys
      subst hys
      exact .arrNil
    | arrCons hxy hrest ih1 ih2 =>
      intro ys k hb
      injection hb with hys
      subst hys
      rename_i x y xs ys1
      cases y with
      | obj gs =>
        exact .arrCons (pres_stamp hpfx hxy k) (ih2 ys1 _ rfl)
      | null => exact .arrCons hxy (ih2 ys1 k rfl)
      | undef => exact .arrCons hxy (ih2 ys1 k rfl)
      | bool b => exact .arrCons hxy (ih2 ys1 k rfl)
      | num n => exact .arrCons hxy (ih2 ys1 k rfl)
      | str s => exact .arrCons hxy (ih2 ys1 k rfl)
      | arr zs => exact .arrCons hxy (ih2 ys1 k rfl)
    | arrSkip hn hrest ih =>
      intro ys k hb
      exact pres_arr_skip hn (ih ys k hb)
    | obj F hmem hrel ih =>
      intro ys k hb
      simp at hb
  exact main h ys0 k rfl

/-- The walk lemma for C3: when every model's primary-key field is the
same name `pkc`, a successful pass of the nested-create rewrite relates
its input to its output by `Pres pkc` — identifiers are preserved at
every depth. Six conjuncts, one per function of the mutual block. -/
theorem pncPres (cfg : ExtConfig) (pkc : String) (hpk : ∀ m, cfg.pkOf m = pkc) :
    ∀ fuel : Nat,
    (∀ d pm k r, processNestedCreates cfg fuel d pm k = .ok r → Pres pkc d r.1) ∧
    (∀ xs pm k r, pncList cfg fuel xs pm k = .ok r →
      Pres pkc (.arr xs) (.arr r.1)) ∧
    (∀ fs pm k r, pncFields cfg fuel fs pm k = .ok r →
      ∀ key v, lookupF fs key = some v →
        ∃ w, lookupF r.1 key = some w ∧ Pres pkc v w) ∧
    (∀ key v pm k r, pncEntry cfg fuel key v pm k = .ok r → Pres pkc v r.1) ∧
    (∀ xs mn pfx k r, pfx ≠ "" →
      pncCreateManyData cfg fuel xs mn pfx pkc k = .ok r →
      Pres pkc (.arr xs) (.arr r.1)) ∧
    (∀ xs key pm k r, pncItemCreateList cfg fuel xs key pm k = .ok r →
      Pres pkc (.arr xs) (.arr r.1)) := by
  intro fuel
  induction fuel with
  | zero =>
    refine ⟨?_, ?_, ?_, ?_, ?_, ?_⟩
    · intro d pm k r h
      simp [processNestedCreates] at h
    · intro xs pm k r h
      cases xs with
      | nil =>
        simp only [pncList] at h
        injection h with h2
        subst h2
        exact .arrNil
      | cons x xs => simp [pncList] at h
    · intro fs pm k r h
      cases fs with
      | nil =>
        simp only [pncFields] at h
        injection h with h2
        subst h2
        intro key v hv
        simp [lookupF] at hv
      | cons f fs => simp [pncFields] at h
    · intro key v pm k r h
      simp [pncEntry] at h
    · intro xs mn pfx k r hpfx h
      cases xs with
      | nil =>
        simp only [pncCreateManyData] at h
        injection h with h2
        subst h2
        exact .arrNil
      | cons x xs => simp [pncCreateManyData] at h
    · intro xs key pm k r h
      cases xs with
      | nil =>
        simp only [pncItemCreateList] at h
        injection h with h2
        subst h2
        exact .arrNil
      | cons x xs => simp [pncItemCreateList] at h
  | succ fuel ih =>
    obtain ⟨ihP, ihL, ihF, ihE, ihC, ihI⟩ := ih
    refine ⟨?_, ?_, ?_, ?_, ?_, ?_⟩
    -- processNestedCreates
    · intro d pm k r h
      cases d with
      | arr xs =>
        simp only [processNestedCreates] at h
        cases hL : pncList cfg fuel xs pm k with
        | error e => rw [hL] at h; simp at h
        | ok q =>
          obtain ⟨ys, k1⟩ := q
          rw [hL] at h
          dsimp only at h
          injection h with h2
          subst h2
          exact ihL xs pm k (ys, k1) hL
      | obj fs =>
        simp only [processNestedCreates] at h
        cases hF : pncFields cfg fuel fs pm k with
        | error e => rw [hF] at h; simp at h
        | ok q =>
          obtain ⟨gs, k1⟩ := q
          rw [hF] at h
          dsimp only at h
          injection h with h2
          subst h2
          exact pres_obj_of (ihF fs pm k (gs, k1) hF)
      | null =>
        simp only [processNestedCreates] at h
        injection h with h2
        subst h2
        exact pres_refl _ _
      | undef =>
        simp only [processNestedCreates] at h
        injection h with h2
        subst h2
        exact pres_refl _ _
      | bool b =>
        simp only [processNestedCreates] at h
        injection h with h2
        subst h2
        exact pres_refl _ _
      | num n =>
        simp only [processNestedCreates] at h
        injection h with h2
        subst h2
        exact pres_refl _ _
      | str s =>
        simp only [processNestedCreates] at h
        injection h with h2
        subst h2
        exact pres_refl _ _
    -- pncList
    · intro xs pm k r h
      cases xs with
      | nil =>
        simp only [pncList] at h
        injection h with h2
        subst h2
        exact .arrNil
      | cons x xs =>
        simp only [pncList] at h
        cases hP : processNestedCreates cfg fuel x pm k with
        | error e => rw [hP] at h; simp at h
        | ok q =>
          obtain ⟨y, k1⟩ := q
          rw [hP] at h
          dsimp only at h
          cases hL : pncList cfg fuel xs pm k1 with
          | error e => rw [hL] at h; simp at h
          | ok q2 =>
            obtain ⟨ys, k2⟩ := q2
            rw [hL] at h
            dsimp only at h
            injection h with h2
            subst h2
            exact .arrCons (ihP x pm k (y, k1) hP) (ihL xs pm k1 (ys, k2) hL)
    -- pncFields
    · intro fs pm k r h
      cases fs with
      | nil =>
        simp only [pncFields] at h
        injection h with h2
        subst h2
        intro key v hv
        simp [lookupF] at hv
      | cons f fs =>
        obtain ⟨key0, v0⟩ := f
        simp only [pncFields] at h
        cases hE : pncEntry cfg fuel key0 v0 pm k with
        | error e => rw [hE] at h; simp at h
        | ok q =>
          obtain ⟨w, k1⟩ := q
          rw [hE] at h
          dsimp only at h
          cases hF : pncFields cfg fuel fs pm k1 with
          | error e => rw [hF] at h; simp at h
          | ok q2 =>
            obtain ⟨gs, k2⟩ := q2
            rw [hF] at h
            dsimp only at h
            injection h with h2
            subst h2
            intro key v hv
            simp only [lookupF] at hv ⊢
            by_cases hk : key0 = key
            · rw [if_pos hk] at hv ⊢
              injection hv with hv2
              subst hv2
              exact ⟨w, rfl, ihE key0 _ pm k (w, k1) hE⟩
            · rw [if_neg hk] at hv ⊢
              exact ihF fs pm k1 (gs, k2) hF key v hv
    -- pncEntry
    · intro key v pm k r h
      by_cases hguard : ¬ truthy v ∨ ¬ typeofObject v
      · simp only [pncEntry] at h
        rw [if_pos hguard] at h
        injection h with h2
        subst h2
        exact pres_refl _ _
      · cases v with
        | arr xs =>
          simp only [pncEntry] at h
          rw [if_neg hguard] at h
          cases hL : pncList cfg fuel xs pm k with
          | error e => rw [hL] at h; simp at h
          | ok q =>
            obtain ⟨ys, k1⟩ := q
            rw [hL] at h
            dsimp only at h
            injection h with h2
            subst h2
            exact ihL xs pm k (ys, k1) hL
        | obj fs =>
          simp only [pncEntry] at h
          rw [if_neg hguard] at h
          by_cases hck : hasCreateKey fs = true
          · rw [if_pos hck] at h
            obtain ⟨c, hlkc, _⟩ := hasCreateKey_elim hck
            have hgetc : getF fs "create" = c := by simp [getF, hlkc]
            cases hR : resolveNestedModelInfo cfg key pm with
            | error e => rw [hR] at h; simp at h
            | ok info =>
              obtain ⟨mn, pfx, pk⟩ := info
              obtain ⟨hpfx, hpkeq⟩ := resolve_ok_ne hR
              rw [hpk mn] at hpkeq
              subst pk
              rw [hR] at h
              dsimp only at h
              cases hP : processNestedCreates cfg fuel (getF fs "create") mn k with
              | error e => rw [hP] at h; simp at h
              | ok q =>
                obtain ⟨c2, k1⟩ := q
                rw [hP] at h
                dsimp only at h
                have hpc := ihP (getF fs "create") mn k (c2, k1) hP
                rw [hgetc] at hpc
                cases c2 with
                | arr ys =>
                  injection h with h2
                  subst h2
                  exact pres_setF hlkc (pres_stampTop hpfx hpc k1)
                | obj gs =>
                  injection h with h2
                  subst h2
                  exact pres_setF hlkc (pres_stamp hpfx hpc k1)
                | null =>
                  injection h with h2
                  subst h2
                  exact pres_setF hlkc hpc
                | undef =>
                  injection h with h2
                  subst h2
                  exact pres_setF hlkc hpc
                | bool b =>
                  injection h with h2
                  subst h2
                  exact pres_setF hlkc hpc
                | num n =>
                  injection h with h2
                  subst h2
                  exact pres_setF hlkc hpc
                | str s =>
                  injection h with h2
                  subst h2
                  exact pres_setF hlkc hpc
          · rw [if_neg hck] at h
            by_cases hcm : hasCreateManyKey fs = true
            · rw [if_pos hcm] at h
              obtain ⟨cfs, hlcm, hdata⟩ := hasCreateManyKey_elim hcm
              cases hR : resolveNestedModelInfo cfg key pm with
              | error e => rw [hR] at h; simp at h
              | ok info =>
                obtain ⟨mn, pfx, pk⟩ := info
                obtain ⟨hpfx, hpkeq⟩ := resolve_ok_ne hR
                rw [hpk mn] at hpkeq
                subst pk
                rw [hR] at h
                dsimp only at h
                rw [show getF fs "createMany" = .obj cfs by simp [getF, hlcm]] at h
                dsimp only at h
                obtain ⟨dataJ, hlkd⟩ := Option.isSome_iff_exists.mp hdata
                rw [show getF cfs "data" = dataJ by simp [getF, hlkd]] at h
                cases dataJ with
                | arr items =>
                  dsimp only at h
                  cases hC : pncCreateManyData cfg fuel items mn pfx pkc k with
                  | error e => rw [hC] at h; simp at h
                  | ok q =>
                    obtain ⟨items2, k1⟩ := q
                    rw [hC] at h
                    dsimp only at h
                    injection h with h2
                    subst h2
                    exact pres_setF hlcm
                      (pres_setF hlkd (ihC items mn pfx k (items2, k1) hpfx hC))
                | null =>
                  dsimp only at h
                  injection h with h2
                  subst h2
                  exact pres_refl _ _
                | undef =>
                  dsimp only at h
                  injection h with h2
                  subst h2
                  exact pres_refl _ _
                | bool b =>
                  dsimp only at h
                  injection h with h2
                  subst h2
                  exact pres_refl _ _
                | num n =>
                  dsimp only at h
                  injection h with h2
                  subst h2
                  exact pres_refl _ _
                | str s =>
                  dsimp only at h
                  injection h with h2
                  subst h2
                  exact pres_refl _ _
                | obj o =>
                  dsimp only at h
                  injection h with h2
                  subst h2
                  exact pres_refl _ _
            · rw [if_neg hcm] at h
              by_cases hco : hasCocKey fs = true
              · rw [if_pos hco] at h
                obtain ⟨cv, hlcv, htcv⟩ := hasCocKey_elim hco
                rw [show getF fs "connectOrCreate" = cv by simp [getF, hlcv]] at h
                cases cv with
                | arr items =>
                  dsimp only at h
                  cases hI : pncItemCreateList cfg fuel items key pm k with
                  | error e => rw [hI] at h; simp at h
                  | ok q =>
                    obtain ⟨items2, k1⟩ := q
                    rw [hI] at h
                    dsimp only at h
                    injection h with h2
                    subst h2
                    exact pres_setF hlcv (ihI items key pm k (items2, k1) hI)
                | obj cvfs =>
                  dsimp only at h
                  by_cases hsome : (lookupF cvfs "create").isSome = true
                  · rw [if_pos hsome] at h
                    obtain ⟨c, hlkc⟩ := Option.isSome_iff_exists.mp hsome
                    have hgetc : getF cvfs "create" = c := by simp [getF, hlkc]
                    cases hR : resolveNestedModelInfo cfg key pm with
                    | error e => rw [hR] at h; simp at h
                    | ok info =>
                      obtain ⟨mn, pfx, pk⟩ := info
                      obtain ⟨hpfx, hpkeq⟩ := resolve_ok_ne hR
                      rw [hpk mn] at hpkeq
                      subst pk
                      rw [hR] at h
                      dsimp only at h
                      cases hP : processNestedCreates cfg fuel (getF cvfs "create") mn k with
                      | error e => rw [hP] at h; simp at h
                      | ok q =>
                        obtain ⟨pc, k1⟩ := q
                        rw [hP] at h
                        dsimp only at h
                        have hpc := ihP (getF cvfs "create") mn k (pc, k1) hP
                        rw [hgetc] at hpc
                        cases pc with
                        | obj pcfs =>
                          injection h with h2
                          subst h2
                          exact pres_setF hlcv
                            (pres_setF hlkc (pres_stamp hpfx hpc k1))
                        | arr zs =>
                          injection h with h2
                          subst h2
                          exact pres_refl _ _
                        | null =>
                          injection h with h2
                          subst h2
                          exact pres_refl _ _
                        | undef =>
                          injection h with h2
                          subst h2
                          exact pres_refl _ _
                        | bool b =>
                          injection h with h2
                          subst h2
                          exact pres_refl _ _
                        | num n =>
                          injection h with h2
                          subst h2
                          exact pres_refl _ _
                        | str s =>
                          injection h with h2
                          subst h2
                          exact pres_refl _ _
                  · rw [if_neg hsome] at h
                    injection h with h2
                    subst h2
                    exact pres_refl _ _
                | null =>
                  dsimp only at h
                  injection h with h2
                  subst h2
                  exact pres_refl _ _
                | undef => simp [typeofObject] at htcv
                | bool b => simp [typeofObject] at htcv
                | num n => simp [typeofObject] at htcv
                | str s => simp [typeofObject] at htcv
              · rw [if_neg hco] at h
                by_cases hup : hasUpsertKey fs = true
                · rw [if_pos hup] at h
                  obtain ⟨uv, hluv, htuv⟩ := hasUpsertKey_elim hup
                  rw [show getF fs "upsert" = uv by simp [getF, hluv]] at h
                  cases uv with
                  | arr items =>
                    dsimp only at h
                    cases hI : pncItemCreateList cfg fuel items key pm k with
                    | error e => rw [hI] at h; simp at h
                    | ok q =>
                      obtain ⟨items2, k1⟩ := q
                      rw [hI] at h
                      dsimp only at h
                      injection h with h2
                      subst h2
                      exact pres_setF hluv (ihI items key pm k (items2, k1) hI)
                  | obj uvfs =>
                    dsimp only at h
                    by_cases hsome : (lookupF uvfs "create").isSome = true
                    · rw [if_pos hsome] at h
                      obtain ⟨c, hlkc⟩ := Option.isSome_iff_exists.mp hsome
                      have hgetc : getF uvfs "create" = c := by simp [getF, hlkc]
                      cases hR : resolveNestedModelInfo cfg key pm with
                      | error e => rw [hR] at h; simp at h
                      | ok info =>
                        obtain ⟨mn, pfx, pk⟩ := info
                        obtain ⟨hpfx, hpkeq⟩ := resolve_ok_ne hR
                        rw [hpk mn] at hpkeq
                        subst pk
                        rw [hR] at h
                        dsimp only at h
                        cases hP : processNestedCreates cfg fuel (getF uvfs "create") mn k with
                        | error e => rw [hP] at h; simp at h
                        | ok q =>
                          obtain ⟨pc, k1⟩ := q
                          rw [hP] at h
                          dsimp only at h
                          have hpc := ihP (getF uvfs "create") mn k (pc, k1) hP
                          rw [hgetc] at hpc
                          cases pc with
                          | obj pcfs =>
                            injection h with h2
                            subst h2
                            exact pres_setF hluv
                              (pres_setF hlkc (pres_stamp hpfx hpc k1))
                          | arr zs =>
                            injection h with h2
                            subst h2
                            exact pres_refl _ _
                          | null =>
                            injection h with h2
                            subst h2
                            exact pres_refl _ _
                          | undef =>
                            injection h with h2
                            subst h2
                            exact pres_refl _ _
                          | bool b =>
                            injection h with h2
                            subst h2
                            exact pres_refl _ _
                          | num n =>
                            injection h with h2
                            subst h2
                            exact pres_refl _ _
                          | str s =>
                            injection h with h2
                            subst h2
                            exact pres_refl _ _
                    · rw [if_neg hsome] at h
                      injection h with h2
                      subst h2
                      exact pres_refl _ _
                  | null =>
                    dsimp only at h
                    injection h with h2
                    subst h2
                    exact pres_refl _ _
                  | undef => simp [typeofObject] at htuv
                  | bool b => simp [typeofObject] at htuv
                  | num n => simp [typeofObject] at htuv
                  | str s => simp [typeofObject] at htuv
                · rw [if_neg hup] at h
                  cases hF : pncFields cfg fuel fs pm k with
                  | error e => rw [hF] at h; simp at h
                  | ok q =>
                    obtain ⟨gs, k1⟩ := q
                    rw [hF] at h
                    dsimp only at h
                    injection h with h2
                    subst h2
                    exact pres_obj_of (ihF fs pm k (gs, k1) hF)
        | null => exact absurd (Or.inl (by simp [truthy])) hguard
        | undef => exact absurd (Or.inl (by simp [truthy])) hguard
        | bool b => exact absurd (Or.inr (by simp [typeofObject])) hguard
        | num n => exact absurd (Or.inr (by simp [typeofObject])) hguard
        | str s => exact absurd (Or.inr (by simp [typeofObject])) hguard
    -- pncCreateManyData
    · intro xs mn pfx k r hpfx h
      cases xs with
      | nil =>
        simp only [pncCreateManyData] at h
        injection h with h2
        subst h2
        exact .arrNil
      | cons x xs =>
        simp only [pncCreateManyData] at h
        by_cases hn : isNullish x = true
        · rw [if_pos hn] at h
          exact pres_arr_skip hn (ihC xs mn pfx k r hpfx h)
        · rw [if_neg hn] at h
          cases hP : processNestedCreates cfg fuel x mn k with
          | error e => rw [hP] at h; simp at h
          | ok q =>
            obtain ⟨y, k1⟩ := q
            rw [hP] at h
            dsimp only at h
            have hxy := ihP x mn k (y, k1) hP
            cases y with
            | obj gs =>
              dsimp only at h
              cases hC : pncCreateManyData cfg fuel xs mn pfx pkc
                  (withGeneratedId cfg pfx pkc gs k1).2 with
              | error e => rw [hC] at h; simp at h
              | ok q2 =>
                obtain ⟨ys, k2⟩ := q2
                rw [hC] at h
                dsimp only at h
                injection h with h2
                subst h2
                exact .arrCons (pres_stamp hpfx hxy k1)
                  (ihC xs mn pfx _ (ys, k2) hpfx hC)
            | arr zs =>
              dsimp only at h
              cases hC : pncCreateManyData cfg fuel xs mn pfx pkc k1 with
              | error e => rw [hC] at h; simp at h
              | ok q2 =>
                obtain ⟨ys, k2⟩ := q2
                rw [hC] at h
                dsimp only at h
                injection h with h2
                subst h2
                exact .arrCons hxy (ihC xs mn pfx k1 (ys, k2) hpfx hC)
            | null =>
              dsimp only at h
              cases hC : pncCreateManyData cfg fuel xs mn pfx pkc k1 with
              | error e => rw [hC] at h; simp at h
              | ok q2 =>
                obtain ⟨ys, k2⟩ := q2
                rw [hC] at h
                dsimp only at h
                injection h with h2
                subst h2
                exact .arrCons hxy (ihC xs mn pfx k1 (ys, k2) hpfx hC)
            | undef =>
              dsimp only at h
              cases hC : pncCreateManyData cfg fuel xs mn pfx pkc k1 with
              | error e => rw [hC] at h; simp at h
              | ok q2 =>
                obtain ⟨ys, k2⟩ := q2
                rw [hC] at h
                dsimp only at h
                injection h with h2
                subst h2
                exact .arrCons hxy (ihC xs mn pfx k1 (ys, k2) hpfx hC)
            | bool b =>
              dsimp only at h
              cases hC : pncCreateManyData cfg fuel xs mn pfx pkc k1 with
              | error e => rw [hC] at h; simp at h
              | ok q2 =>
                obtain ⟨ys, k2⟩ := q2
                rw [hC] at h
                dsimp only at h
                injection h with h2
                subst h2
                exact .arrCons hxy (ihC xs mn pfx k1 (ys, k2) hpfx hC)
            | num n =>
              dsimp only at h
              cases hC : pncCreateManyData cfg fuel xs mn pfx pkc k1 with
              | error e => rw [hC] at h; simp at h
              | ok q2 =>
                obtain ⟨ys, k2⟩ := q2
                rw [hC] at h
                dsimp only at h
                injection h with h2
                subst h2
                exact .arrCons hxy (ihC xs mn pfx k1 (ys, k2) hpfx hC)
            | str st =>
              dsimp only at h
              cases hC : pncCreateManyData cfg fuel xs mn pfx pkc k1 with
              | error e => rw [hC] at h; simp at h
              | ok q2 =>
                obtain ⟨ys, k2⟩ := q2
                rw [hC] at h
                dsimp only at h
                injection h with h2
                subst h2
                exact .arrCons hxy (ihC xs mn pfx k1 (ys, k2) hpfx hC)
    -- pncItemCreateList
    · intro xs key pm k r h
      cases xs with
      | nil =>
        simp only [pncItemCreateList] at h
        injection h with h2
        subst h2
        exact .arrNil
      | cons x xs =>
        simp only [pncItemCreateList] at h
        cases x with
        | obj xfs =>
          dsimp only at h
          by_cases hsome : (lookupF xfs "create").isSome = true
          · rw [if_pos hsome] at h
            obtain ⟨c, hlkc⟩ := Option.isSome_iff_exists.mp hsome
            have hgetc : getF xfs "create" = c := by simp [getF, hlkc]
            cases hR : resolveNestedModelInfo cfg key pm with
            | error e => rw [hR] at h; simp at h
            | ok info =>
              obtain ⟨mn, pfx, pk⟩ := info
              obtain ⟨hpfx, hpkeq⟩ := resolve_ok_ne hR
              rw [hpk mn] at hpkeq
              subst pk
              rw [hR] at h
              dsimp only at h
              cases hP : processNestedCreates cfg fuel (getF xfs "create") mn k with
              | error e => rw [hP] at h; simp at h
              | ok q =>
                obtain ⟨pc, k1⟩ := q
                rw [hP] at h
                dsimp only at h
                have hpc := ihP (getF xfs "create") mn k (pc, k1) hP
                rw [hgetc] at hpc
                cases pc with
                | obj pcfs =>
                  dsimp only at h
                  cases hI : pncItemCreateList cfg fuel xs key pm
                      (withGeneratedId cfg pfx pkc pcfs k1).2 with
                  | error e => rw [hI] at h; simp at h
                  | ok q2 =>
                    obtain ⟨ys, k2⟩ := q2
                    rw [hI] at h
                    dsimp only at h
                    injection h with h2
                    subst h2
                    exact .arrCons (pres_setF hlkc (pres_stamp hpfx hpc k1))
                      (ihI xs key pm _ (ys, k2) hI)
                | arr zs =>
                  dsimp only at h
                  cases hI : pncItemCreateList cfg fuel xs key pm k1 with
                  | error e => rw [hI] at h; simp at h
                  | ok q2 =>
                    obtain ⟨ys, k2⟩ := q2
                    rw [hI] at h
                    dsimp only at h
                    injection h with h2
                    subst h2
                    exact .arrCons (pres_refl _ _) (ihI xs key pm k1 (ys, k2) hI)
                | null =>
                  dsimp only at h
                  cases hI : pncItemCreateList cfg fuel xs key pm k1 with
                  | error e => rw [hI] at h; simp at h
                  | ok q2 =>
                    obtain ⟨ys, k2⟩ := q2
                    rw [hI] at h
                    dsimp only at h
                    injection h with h2
                    subst h2
                    exact .arrCons (pres_refl _ _) (ihI xs key pm k1 (ys, k2) hI)
                | undef =>
                  dsimp only at h
                  cases hI : pncItemCreateList cfg fuel xs key pm k1 with
                  | error e => rw [hI] at h; simp at h
                  | ok q2 =>
                    obtain ⟨ys, k2⟩ := q2
                    rw [hI] at h
                    dsimp only at h
                    injection h with h2
                    subst h2
                    exact .arrCons (pres_refl _ _) (ihI xs key pm k1 (ys, k2) hI)
                | bool b =>
                  dsimp only at h
                  cases hI : pncItemCreateList cfg fuel xs key pm k1 with
                  | error e => rw [hI] at h; simp at h
                  | ok q2 =>
                    obtain ⟨ys, k2⟩ := q2
                    rw [hI] at h
                    dsimp only at h
                    injection h with h2
                    subst h2
                    exact .arrCons (pres_refl _ _) (ihI xs key pm k1 (ys, k2) hI)
                | num n =>
                  dsimp only at h
                  cases hI : pncItemCreateList cfg fuel xs key pm k1 with
                  | error e => rw [hI] at h; simp at h
                  | ok q2 =>
                    obtain ⟨ys, k2⟩ := q2
                    rw [hI] at h
                    dsimp only at h
                    injection h with h2
                    subst h2
                    exact .arrCons (pres_refl _ _) (ihI xs key pm k1 (ys, k2) hI)
                | str st =>
                  dsimp only at h
                  cases hI : pncItemCreateList cfg fuel xs key pm k1 with
                  | error e => rw [hI] at h; simp at h
                  | ok q2 =>
                    obtain ⟨ys, k2⟩ := q2
                    rw [hI] at h
                    dsimp only at h
                    injection h with h2
                    subst h2
                    exact .arrCons (pres_refl _ _) (ihI xs key pm k1 (ys, k2) hI)
          · rw [if_neg hsome] at h
            cases hI : pncItemCreateList cfg fuel xs key pm k with
            | error e => rw [hI] at h; simp at h
            | ok q2 =>
              obtain ⟨ys, k2⟩ := q2
              rw [hI] at h
              dsimp only at h
              injection h with h2
              subst h2
              exact .arrCons (pres_refl _ _) (ihI xs key pm k (ys, k2) hI)
        | arr zs =>
          dsimp only at h
          cases hI : pncItemCreateList cfg fuel xs key pm k with
          | error e => rw [hI] at h; simp at h
          | ok q2 =>
            obtain ⟨ys, k2⟩ := q2
            rw [hI] at h
            dsimp only at h
            injection h with h2
            subst h2
            exact .arrCons (pres_refl _ _) (ihI xs key pm k (ys, k2) hI)
        | null =>
          dsimp only at h
          cases hI : pncItemCreateList cfg fuel xs key pm k with
          | error e => rw [hI] at h; simp at h
          | ok q2 =>
            obtain ⟨ys, k2⟩ := q2
            rw [hI] at h
            dsimp only at h
            injection h with h2
            subst h2
            exact .arrCons (pres_refl _ _) (ihI xs key pm k (ys, k2) hI)
        | undef =>
          dsimp only at h
          cases hI : pncItemCreateList cfg fuel xs key pm k with
          | error e => rw [hI] at h; simp at h
          | ok q2 =>
            obtain ⟨ys, k2⟩ := q2
            rw [hI] at h
            dsimp only at h
            injection h with h2
            subst h2
            exact .arrCons (pres_refl _ _) (ihI xs key pm k (ys, k2) hI)
        | bool b =>
          dsimp only at h
          cases hI : pncItemCreateList cfg fuel xs key pm k with
          | error e => rw [hI] at h; simp at h
          | ok q2 =>
            obtain ⟨ys, k2⟩ := q2
            rw [hI] at h
            dsimp only at h
            injection h with h2
            subst h2
            exact .arrCons (pres_refl _ _) (ihI xs key pm k (ys, k2) hI)
        | num n =>
          dsimp only at h
          cases hI : pncItemCreateList cfg fuel xs key pm k with
          | error e => rw [hI] at h; simp at h
          | ok q2 =>
            obtain ⟨ys, k2⟩ := q2
            rw [hI] at h
            dsimp only at h
            injection h with h2
            subst h2
            exact .arrCons (pres_refl _ _) (ihI xs key pm k (ys, k2) hI)
        | str st =>
          dsimp only at h
          cases hI : pncItemCreateList cfg fuel xs key pm k with
          | error e => rw [hI] at h; simp at h
          | ok q2 =>
            obtain ⟨ys, k2⟩ := q2
            rw [hI] at h
            dsimp only at h
            injection h with h2
            subst h2
            exact .arrCons (pres_refl _ _) (ihI xs key pm k (ys, k2) hI)

/-- C3 wrapper: a successful `processNestedCreates` pass relates input
to output by `Pres`. -/
theorem pncTop_pres {cfg : ExtConfig} {pkc : String}
    (hpk : ∀ m, cfg.pkOf m = pkc) {d : Json} {pm : String} {k : Nat}
    {r : Json × Nat} (h : pncTop cfg d pm k = .ok r) : Pres pkc d r.1 :=
  ((pncPres cfg pkc hpk (jsize d)).1) d pm k r h

/-- C3 wrapper for the `create` handler: a successful run relates input
payload to rewritten payload by `Pres`. -/
theorem createHandler_pres (cfg : ExtConfig) (pkc : String)
    (hpk : ∀ m, cfg.pkOf m = pkc) {model : String} {data : Json} {k : Nat}
    {r : Json × Nat} (h : createHandler cfg model data k = .ok r) :
    Pres pkc data r.1 := by
  unfold createHandler at h
  cases hEn : ensurePrefixForModel cfg model with
  | error e => rw [hEn] at h; simp at h
  | ok pfx =>
    have hpfx := ensure_ok_ne hEn
    rw [hEn] at h
    dsimp only at h
    rw [hpk model] at h
    cases data with
    | undef =>
      injection h with h2
      subst h2
      exact pres_refl _ _
    | null =>
      injection h with h2
      subst h2
      exact pres_refl _ _
    | obj fs =>
      dsimp only at h
      by_cases hpn : cfg.processNested = true
      · rw [if_pos hpn] at h
        cases hT : pncTop cfg (Json.obj (withGeneratedId cfg pfx pkc fs k).1) model ((withGeneratedId cfg pfx pkc fs k).2) with
        | error e => rw [hT] at h; simp at h
        | ok q =>
          obtain ⟨d2, k2⟩ := q
          rw [hT] at h
          dsimp only at h
          have h2p := pres_trans (pres_stamp hpfx (pres_refl pkc (Json.obj fs)) k) (pncTop_pres hpk hT)
          cases d2 with
          | obj gs =>
            injection h with h2
            subst h2
            exact pres_stamp hpfx h2p k2
          | arr zs =>
            injection h with h2
            subst h2
            exact h2p
          | null =>
            injection h with h2
            subst h2
            exact h2p
          | undef =>
            injection h with h2
            subst h2
            exact h2p
          | bool b =>
            injection h with h2
            subst h2
            exact h2p
          | num n =>
            injection h with h2
            subst h2
            exact h2p
          | str st =>
            injection h with h2
            subst h2
            exact h2p
      · rw [if_neg hpn] at h
        injection h with h2
        subst h2
        exact pres_stamp hpfx (pres_refl pkc (Json.obj fs)) k
    | arr xs =>
      dsimp only at h
      by_cases hpn : cfg.processNested = true
      · rw [if_pos hpn] at h
        cases hT : pncTop cfg (Json.arr xs) model (k) with
        | error e => rw [hT] at h; simp at h
        | ok q =>
          obtain ⟨d2, k2⟩ := q
          rw [hT] at h
          dsimp only at h
          have h2p := pres_trans (pres_refl pkc (Json.arr xs)) (pncTop_pres hpk hT)
          cases d2 with
          | obj gs =>
            injection h with h2
            subst h2
            exact pres_stamp hpfx h2p k2
          | arr zs =>
            injection h with h2
            subst h2
            exact h2p
          | null =>
            injection h with h2
            subst h2
            exact h2p
          | undef =>
            injection h with h2
            subst h2
            exact h2p
          | bool b =>
            injection h with h2
            subst h2
            exact h2p
          | num n =>
            injection h with h2
            subst h2
            exact h2p
          | str st =>
            injection h with h2
            subst h2
            exact h2p
      · rw [if_neg hpn] at h
        injection h with h2
        subst h2
        exact pres_refl pkc (Json.arr xs)
    | bool b =>
      dsimp only at h
      by_cases hpn : cfg.processNested = true
      · rw [if_pos hpn] at h
        cases hT : pncTop cfg (Json.bool b) model (k) with
        | error e => rw [hT] at h; simp at h
        | ok q =>
          obtain ⟨d2, k2⟩ := q
          rw [hT] at h
          dsimp only at h
          have h2p := pres_trans (pres_refl pkc (Json.bool b)) (pncTop_pres hpk hT)
          cases d2 with
          | obj gs =>
            injection h with h2
            subst h2
            exact pres_stamp hpfx h2p k2
          | arr zs =>
            injection h with h2
            subst h2
            exact h2p
          | null =>
            injection h with h2
            subst h2
            exact h2p
          | undef =>
            injection h with h2
            subst h2
            exact h2p
          | bool b =>
            injection h with h2
            subst h2
            exact h2p
          | num n =>
            injection h with h2
            subst h2
            exact h2p
          | str st =>
            injection h with h2
            subst h2
            exact h2p
      · rw [if_neg hpn] at h
        injection h with h2
        subst h2
        exact pres_refl pkc (Json.bool b)
    | num n =>
      dsimp only at h
      by_cases hpn : cfg.processNested = true
      · rw [if_pos hpn] at h
        cases hT : pncTop cfg (Json.num n) model (k) with
        | error e => rw [hT] at h; simp at h
        | ok q =>
          obtain ⟨d2, k2⟩ := q
          rw [hT] at h
          dsimp only at h
          have h2p := pres_trans (pres_refl pkc (Json.num n)) (pncTop_pres hpk hT)
          cases d2 with
          | obj gs =>
            injection h with h2
            subst h2
            exact pres_stamp hpfx h2p k2
          | arr zs =>
            injection h with h2
            subst h2
            exact h2p
          | null =>
            injection h with h2
            subst h2
            exact h2p
          | undef =>
            injection h with h2
            subst h2
            exact h2p
          | bool b =>
            injection h with h2
            subst h2
            exact h2p
          | num n =>
            injection h with h2
            subst h2
            exact h2p
          | str st =>
            injection h with h2
            subst h2
            exact h2p
      · rw [if_neg hpn] at h
        injection h with h2
        subst h2
        exact pres_refl pkc (Json.num n)
    | str st =>
      dsimp only at h
      by_cases hpn : cfg.processNested = true
      · rw [if_pos hpn] at h
        cases hT : pncTop cfg (Json.str st) model (k) with
        | error e => rw [hT] at h; simp at h
        | ok q =>
          obtain ⟨d2, k2⟩ := q
          rw [hT] at h
          dsimp only at h
          have h2p := pres_trans (pres_refl pkc (Json.str st)) (pncTop_pres hpk hT)
          cases d2 with
          | obj gs =>
            injection h with h2
            subst h2
            exact pres_stamp hpfx h2p k2
          | arr zs =>
            injection h with h2
            subst h2
            exact h2p
          | null =>
            injection h with h2
            subst h2
            exact h2p
          | undef =>
            injection h with h2
            subst h2
            exact h2p
          | bool b =>
            injection h with h2
            subst h2
            exact h2p
          | num n =>
            injection h with h2
            subst h2
            exact h2p
          | str st =>
            injection h with h2
            subst h2
            exact h2p
      · rw [if_neg hpn] at h
        injection h with h2
        subst h2
        exact pres_refl pkc (Json.str st)

/-- C3 wrapper for the `createMany` item loop. -/
theorem createManyItems_pres (cfg : ExtConfig) (pkc : String)
    (hpk : ∀ m, cfg.pkOf m = pkc) (pfx model : String) (hpfx : pfx ≠ "") :
    ∀ xs k r, createManyItems cfg pfx pkc model xs k = .ok r →
      Pres pkc (.arr xs) (.arr r.1) := by
  intro xs
  induction xs with
  | nil =>
    intro k r h
    simp only [createManyItems] at h
    injection h with h2
    subst h2
    exact .arrNil
  | cons x xs ih =>
    intro k r h
    simp only [createManyItems] at h
    by_cases hn : isNullish x = true
    · rw [if_pos hn] at h
      exact pres_arr_skip hn (ih k r h)
    · rw [if_neg hn] at h
      cases x with
      | obj fs =>
        dsimp only at h
        by_cases hpn : (¬ cfg.processNested = true)
        · rw [if_pos hpn] at h
          cases hM : createManyItems cfg pfx pkc model xs ((withGeneratedId cfg pfx pkc fs k).2) with
          | error e => rw [hM] at h; simp at h
          | ok q =>
            obtain ⟨ys, k2⟩ := q
            rw [hM] at h
            dsimp only at h
            injection h with h2
            subst h2
            exact .arrCons (pres_stamp hpfx (pres_refl pkc (Json.obj fs)) k) (ih _ _ hM)
        · rw [if_neg hpn] at h
          cases hT : pncTop cfg (Json.obj (withGeneratedId cfg pfx pkc fs k).1) model ((withGeneratedId cfg pfx pkc fs k).2) with
          | error e => rw [hT] at h; simp at h
          | ok q =>
            obtain ⟨p, k2⟩ := q
            rw [hT] at h
            dsimp only at h
            have h2p := pres_trans (pres_stamp hpfx (pres_refl pkc (Json.obj fs)) k) (pncTop_pres hpk hT)
            cases p with
          | obj gs =>
            dsimp only at h
            cases hM : createManyItems cfg pfx pkc model xs
                (withGeneratedId cfg pfx pkc gs k2).2 with
            | error e => rw [hM] at h; simp at h
            | ok q2 =>
              obtain ⟨ys, k3⟩ := q2
              rw [hM] at h
              dsimp only at h
              injection h with h2
              subst h2
              exact .arrCons (pres_stamp hpfx h2p k2) (ih _ _ hM)
          | arr ws =>
            dsimp only at h
            cases hM : createManyItems cfg pfx pkc model xs k2 with
            | error e => rw [hM] at h; simp at h
            | ok q2 =>
              obtain ⟨ys, k3⟩ := q2
              rw [hM] at h
              dsimp only at h
              injection h with h2
              subst h2
              exact .arrCons h2p (ih _ _ hM)
          | null =>
            dsimp only at h
            cases hM : createManyItems cfg pfx pkc model xs k2 with
            | error e => rw [hM] at h; simp at h
            | ok q2 =>
              obtain ⟨ys, k3⟩ := q2
              rw [hM] at h
              dsimp only at h
              injection h with h2
              subst h2
              exact .arrCons h2p (ih _ _ hM)
          | undef =>
            dsimp only at h
            cases hM : createManyItems cfg pfx pkc model xs k2 with
            | error e => rw [hM] at h; simp at h
            | ok q2 =>
              obtain ⟨ys, k3⟩ := q2
              rw [hM] at h
              dsimp only at h
              injection h with h2
              subst h2
              exact .arrCons h2p (ih _ _ hM)
          | bool b =>
            dsimp only at h
            cases hM : createManyItems cfg pfx pkc model xs k2 with
            | error e => rw [hM] at h; simp at h
            | ok q2 =>
              obtain ⟨ys, k3⟩ := q2
              rw [hM] at h
              dsimp only at h
              injection h with h2
              subst h2
              exact .arrCons h2p (ih _ _ hM)
          | num n =>
            dsimp only at h
            cases hM : createManyItems cfg pfx pkc model xs k2 with
            | error e => rw [hM] at h; simp at h
            | ok q2 =>
              obtain ⟨ys, k3⟩ := q2
              rw [hM] at h
              dsimp only at h
              injection h with h2
              subst h2
              exact .arrCons h2p (ih _ _ hM)
          | str st =>
            dsimp only at h
            cases hM : createManyItems cfg pfx pkc model xs k2 with
            | error e => rw [hM] at h; simp at h
            | ok q2 =>
              obtain ⟨ys, k3⟩ := q2
              rw [hM] at h
              dsimp only at h
              injection h with h2
              subst h2
              exact .arrCons h2p (ih _ _ hM)
      | arr zs =>
        dsimp only at h
        by_cases hpn : (¬ cfg.processNested = true)
        · rw [if_pos hpn] at h
          cases hM : createManyItems cfg pfx pkc model xs (k) with
          | error e => rw [hM] at h; simp at h
          | ok q =>
            obtain ⟨ys, k2⟩ := q
            rw [hM] at h
            dsimp only at h
            injection h with h2
            subst h2
            exact .arrCons (pres_refl pkc (Json.arr zs)) (ih _ _ hM)
        · rw [if_neg hpn] at h
          cases hT : pncTop cfg (Json.arr zs) model (k) with
          | error e => rw [hT] at h; simp at h
          | ok q =>
            obtain ⟨p, k2⟩ := q
            rw [hT] at h
            dsimp only at h
            have h2p := pres_trans (pres_refl pkc (Json.arr zs)) (pncTop_pres hpk hT)
            cases p with
          | obj gs =>
            dsimp only at h
            cases hM : createManyItems cfg pfx pkc model xs
                (withGeneratedId cfg pfx pkc gs k2).2 with
            | error e => rw [hM] at h; simp at h
            | ok q2 =>
              obtain ⟨ys, k3⟩ := q2
              rw [hM] at h
              dsimp only at h
              injection h with h2
              subst h2
              exact .arrCons (pres_stamp hpfx h2p k2) (ih _ _ hM)
          | arr ws =>
            dsimp only at h
            cases hM : createManyItems cfg pfx pkc model xs k2 with
            | error e => rw [hM] at h; simp at h
            | ok q2 =>
              obtain ⟨ys, k3⟩ := q2
              rw [hM] at h
              dsimp only at h
              injection h with h2
              subst h2
              exact .arrCons h2p (ih _ _ hM)
          | null =>
            dsimp only at h
            cases hM : createManyItems cfg pfx pkc model xs k2 with
            | error e => rw [hM] at h; simp at h
            | ok q2 =>
              obtain ⟨ys, k3⟩ := q2
              rw [hM] at h
              dsimp only at h
              injection h with h2
              subst h2
              exact .arrCons h2p (ih _ _ hM)
          | undef =>
            dsimp only at h
            cases hM : createManyItems cfg pfx pkc model xs k2 with
            | error e => rw [hM] at h; simp at h
            | ok q2 =>
              obtain ⟨ys, k3⟩ := q2
              rw [hM] at h
              dsimp only at h
              injection h with h2
              subst h2
              exact .arrCons h2p (ih _ _ hM)
          | bool b =>
            dsimp only at h
            cases hM : createManyItems cfg pfx pkc model xs k2 with
            | error e => rw [hM] at h; simp at h
            | ok q2 =>
              obtain ⟨ys, k3⟩ := q2
              rw [hM] at h
              dsimp only at h
              injection h with h2
              subst h2
              exact .arrCons h2p (ih _ _ hM)
          | num n =>
            dsimp only at h
            cases hM : createManyItems cfg pfx pkc model xs k2 with
            | error e => rw [hM] at h; simp at h
            | ok q2 =>
              obtain ⟨ys, k3⟩ := q2
              rw [hM] at h
              dsimp only at h
              injection h with h2
              subst h2
              exact .arrCons h2p (ih _ _ hM)
          | str st =>
            dsimp only at h
            cases hM : createManyItems cfg pfx pkc model xs k2 with
            | error e => rw [hM] at h; simp at h
            | ok q2 =>
              obtain ⟨ys, k3⟩ := q2
              rw [hM] at h
              dsimp only at h
              injection h with h2
              subst h2
              exact .arrCons h2p (ih _ _ hM)
      | null =>
        dsimp only at h
        by_cases hpn : (¬ cfg.processNested = true)
        · rw [if_pos hpn] at h
          cases hM : createManyItems cfg pfx pkc model xs (k) with
          | error e => rw [hM] at h; simp at h
          | ok q =>
            obtain ⟨ys, k2⟩ := q
            rw [hM] at h
            dsimp only at h
            injection h with h2
            subst h2
            exact .arrCons (pres_refl pkc Json.null) (ih _ _ hM)
        · rw [if_neg hpn] at h
          cases hT : pncTop cfg (Json.null) model (k) with
          | error e => rw [hT] at h; simp at h
          | ok q =>
            obtain ⟨p, k2⟩ := q
            rw [hT] at h
            dsimp only at h
            have h2p := pres_trans (pres_refl pkc Json.null) (pncTop_pres hpk hT)
            cases p with
          | obj gs =>
            dsimp only at h
            cases hM : createManyItems cfg pfx pkc model xs
                (withGeneratedId cfg pfx pkc gs k2).2 with
            | error e => rw [hM] at h; simp at h
            | ok q2 =>
              obtain ⟨ys, k3⟩ := q2
              rw [hM] at h
              dsimp only at h
              injection h with h2
              subst h2
              exact .arrCons (pres_stamp hpfx h2p k2) (ih _ _ hM)
          | arr ws =>
            dsimp only at h
            cases hM : createManyItems cfg pfx pkc model xs k2 with
            | error e => rw [hM] at h; simp at h
            | ok q2 =>
              obtain ⟨ys, k3⟩ := q2
              rw [hM] at h
              dsimp only at h
              injection h with h2
              subst h2
              exact .arrCons h2p (ih _ _ hM)
          | null =>
            dsimp only at h
            cases hM : createManyItems cfg pfx pkc model xs k2 with
            | error e => rw [hM] at h; simp at h
            | ok q2 =>
              obtain ⟨ys, k3⟩ := q2
              rw [hM] at h
              dsimp only at h
              injection h with h2
              subst h2
              exact .arrCons h2p (ih _ _ hM)
          | undef =>
            dsimp only at h
            cases hM : createManyItems cfg pfx pkc model xs k2 with
            | error e => rw [hM] at h; simp at h
            | ok q2 =>
              obtain ⟨ys, k3⟩ := q2
              rw [hM] at h
              dsimp only at h
              injection h with h2
              subst h2
              exact .arrCons h2p (ih _ _ hM)
          | bool b =>
            dsimp only at h
            cases hM : createManyItems cfg pfx pkc model xs k2 with
            | error e => rw [hM] at h; simp at h
            | ok q2 =>
              obtain ⟨ys, k3⟩ := q2
              rw [hM] at h
              dsimp only at h
              injection h with h2
              subst h2
              exact .arrCons h2p (ih _ _ hM)
          | num n =>
            dsimp only at h
            cases hM : createManyItems cfg pfx pkc model xs k2 with
            | error e => rw [hM] at h; simp at h
            | ok q2 =>
              obtain ⟨ys, k3⟩ := q2
              rw [hM] at h
              dsimp only at h
              injection h with h2
              subst h2
              exact .arrCons h2p (ih _ _ hM)
          | str st =>
            dsimp only at h
            cases hM : createManyItems cfg pfx pkc model xs k2 with
            | error e => rw [hM] at h; simp at h
            | ok q2 =>
              obtain ⟨ys, k3⟩ := q2
              rw [hM] at h
              dsimp only at h
              injection h with h2
              subst h2
              exact .arrCons h2p (ih _ _ hM)
      | undef =>
        dsimp only at h
        by_cases hpn : (¬ cfg.processNested = true)
        · rw [if_pos hpn] at h
          cases hM : createManyItems cfg pfx pkc model xs (k) with
          | error e => rw [hM] at h; simp at h
          | ok q =>
            obtain ⟨ys, k2⟩ := q
            rw [hM] at h
            dsimp only at h
            injection h with h2
            subst h2
            exact .arrCons (pres_refl pkc Json.undef) (ih _ _ hM)
        · rw [if_neg hpn] at h
          cases hT : pncTop cfg (Json.undef) model (k) with
          | error e => rw [hT] at h; simp at h
          | ok q =>
            obtain ⟨p, k2⟩ := q
            rw [hT] at h
            dsimp only at h
            have h2p := pres_trans (pres_refl pkc Json.undef) (pncTop_pres hpk hT)
            cases p with
          | obj gs =>
            dsimp only at h
            cases hM : createManyItems cfg pfx pkc model xs
                (withGeneratedId cfg pfx pkc gs k2).2 with
            | error e => rw [hM] at h; simp at h
            | ok q2 =>
              obtain ⟨ys, k3⟩ := q2
              rw [hM] at h
              dsimp only at h
              injection h with h2
              subst h2
              exact .arrCons (pres_stamp hpfx h2p k2) (ih _ _ hM)
          | arr ws =>
            dsimp only at h
            cases hM : createManyItems cfg pfx pkc model xs k2 with
            | error e => rw [hM] at h; simp at h
            | ok q2 =>
              obtain ⟨ys, k3⟩ := q2
              rw [hM] at h
              dsimp only at h
              injection h with h2
              subst h2
              exact .arrCons h2p (ih _ _ hM)
          | null =>
            dsimp only at h
            cases hM : createManyItems cfg pfx pkc model xs k2 with
            | error e => rw [hM] at h; simp at h
            | ok q2 =>
              obtain ⟨ys, k3⟩ := q2
              rw [hM] at h
              dsimp only at h
              injection h with h2
              subst h2
              exact .arrCons h2p (ih _ _ hM)
          | undef =>
            dsimp only at h
            cases hM : createManyItems cfg pfx pkc model xs k2 with
            | error e => rw [hM] at h; simp at h
            | ok q2 =>
              obtain ⟨ys, k3⟩ := q2
              rw [hM] at h
              dsimp only at h
              injection h with h2
              subst h2
              exact .arrCons h2p (ih _ _ hM)
          | bool b =>
            dsimp only at h
            cases hM : createManyItems cfg pfx pkc model xs k2 with
            | error e => rw [hM] at h; simp at h
            | ok q2 =>
              obtain ⟨ys, k3⟩ := q2
              rw [hM] at h
              dsimp only at h
              injection h with h2
              subst h2
              exact .arrCons h2p (ih _ _ hM)
          | num n =>
            dsimp only at h
            cases hM : createManyItems cfg pfx pkc model xs k2 with
            | error e => rw [hM] at h; simp at h
            | ok q2 =>
              obtain ⟨ys, k3⟩ := q2
              rw [hM] at h
              dsimp only at h
              injection h with h2
              subst h2
              exact .arrCons h2p (ih _ _ hM)
          | str st =>
            dsimp only at h
            cases hM : createManyItems cfg pfx pkc model xs k2 with
            | error e => rw [hM] at h; simp at h
            | ok q2 =>
              obtain ⟨ys, k3⟩ := q2
              rw [hM] at h
              dsimp only at h
              injection h with h2
              subst h2
              exact .arrCons h2p (ih _ _ hM)
      | bool b =>
        dsimp only at h
        by_cases hpn : (¬ cfg.processNested = true)
        · rw [if_pos hpn] at h
          cases hM : createManyItems cfg pfx pkc model xs (k) with
          | error e => rw [hM] at h; simp at h
          | ok q =>
            obtain ⟨ys, k2⟩ := q
            rw [hM] at h
            dsimp only at h
            injection h with h2
            subst h2
            exact .arrCons (pres_refl pkc (Json.bool b)) (ih _ _ hM)
        · rw [if_neg hpn] at h
          cases hT : pncTop cfg (Json.bool b) model (k) with
          | error e => rw [hT] at h; simp at h
          | ok q =>
            obtain ⟨p, k2⟩ := q
            rw [hT] at h
            dsimp only at h
            have h2p := pres_trans (pres_refl pkc (Json.bool b)) (pncTop_pres hpk hT)
            cases p with
          | obj gs =>
            dsimp only at h
            cases hM : createManyItems cfg pfx pkc model xs
                (withGeneratedId cfg pfx pkc gs k2).2 with
            | error e => rw [hM] at h; simp at h
            | ok q2 =>
              obtain ⟨ys, k3⟩ := q2
              rw [hM] at h
              dsimp only at h
              injection h with h2
              subst h2
              exact .arrCons (pres_stamp hpfx h2p k2) (ih _ _ hM)
          | arr ws =>
            dsimp only at h
            cases hM : createManyItems cfg pfx pkc model xs k2 with
            | error e => rw [hM] at h; simp at h
            | ok q2 =>
              obtain ⟨ys, k3⟩ := q2
              rw [hM] at h
              dsimp only at h
              injection h with h2
              subst h2
              exact .arrCons h2p (ih _ _ hM)
          | null =>
            dsimp only at h
            cases hM : createManyItems cfg pfx pkc model xs k2 with
            | error e => rw [hM] at h; simp at h
            | ok q2 =>
              obtain ⟨ys, k3⟩ := q2
              rw [hM] at h
              dsimp only at h
              injection h with h2
              subst h2
              exact .arrCons h2p (ih _ _ hM)
          | undef =>
            dsimp only at h
            cases hM : createManyItems cfg pfx pkc model xs k2 with
            | error e => rw [hM] at h; simp at h
            | ok q2 =>
              obtain ⟨ys, k3⟩ := q2
              rw [hM] at h
              dsimp only at h
              injection h with h2
              subst h2
              exact .arrCons h2p (ih _ _ hM)
          | bool b =>
            dsimp only at h
            cases hM : createManyItems cfg pfx pkc model xs k2 with
            | error e => rw [hM] at h; simp at h
            | ok q2 =>
              obtain ⟨ys, k3⟩ := q2
              rw [hM] at h
              dsimp only at h
              injection h with h2
              subst h2
              exact .arrCons h2p (ih _ _ hM)
          | num n =>
            dsimp only at h
            cases hM : createManyItems cfg pfx pkc model xs k2 with
            | error e => rw [hM] at h; simp at h
            | ok q2 =>
              obtain ⟨ys, k3⟩ := q2
              rw [hM] at h
              dsimp only at h
              injection h with h2
              subst h2
              exact .arrCons h2p (ih _ _ hM)
          | str st =>
            dsimp only at h
            cases hM : createManyItems cfg pfx pkc model xs k2 with
            | error e => rw [hM] at h; simp at h
            | ok q2 =>
              obtain ⟨ys, k3⟩ := q2
              rw [hM] at h
              dsimp only at h
              injection h with h2
              subst h2
              exact .arrCons h2p (ih _ _ hM)
      | num n =>
        dsimp only at h
        by_cases hpn : (¬ cfg.processNested = true)
        · rw [if_pos hpn] at h
          cases hM : createManyItems cfg pfx pkc model xs (k) with
          | error e => rw [hM] at h; simp at h
          | ok q =>
            obtain ⟨ys, k2⟩ := q
            rw [hM] at h
            dsimp only at h
            injection h with h2
            subst h2
            exact .arrCons (pres_refl pkc (Json.num n)) (ih _ _ hM)
        · rw [if_neg hpn] at h
          cases hT : pncTop cfg (Json.num n) model (k) with
          | error e => rw [hT] at h; simp at h
          | ok q =>
            obtain ⟨p, k2⟩ := q
            rw [hT] at h
            dsimp only at h
            have h2p := pres_trans (pres_refl pkc (Json.num n)) (pncTop_pres hpk hT)
            cases p with
          | obj gs =>
            dsimp only at h
            cases hM : createManyItems cfg pfx pkc model xs
                (withGeneratedId cfg pfx pkc gs k2).2 with
            | error e => rw [hM] at h; simp at h
            | ok q2 =>
              obtain ⟨ys, k3⟩ := q2
              rw [hM] at h
              dsimp only at h
              injection h with h2
              subst h2
              exact .arrCons (pres_stamp hpfx h2p k2) (ih _ _ hM)
          | arr ws =>
            dsimp only at h
            cases hM : createManyItems cfg pfx pkc model xs k2 with
            | error e => rw [hM] at h; simp at h
            | ok q2 =>
              obtain ⟨ys, k3⟩ := q2
              rw [hM] at h
              dsimp only at h
              injection h with h2
              subst h2
              exact .arrCons h2p (ih _ _ hM)
          | null =>
            dsimp only at h
            cases hM : createManyItems cfg pfx pkc model xs k2 with
            | error e => rw [hM] at h; simp at h
            | ok q2 =>
              obtain ⟨ys, k3⟩ := q2
              rw [hM] at h
              dsimp only at h
              injection h with h2
              subst h2
              exact .arrCons h2p (ih _ _ hM)
          | undef =>
            dsimp only at h
            cases hM : createManyItems cfg pfx pkc model xs k2 with
            | error e => rw [hM] at h; simp at h
            | ok q2 =>
              obtain ⟨ys, k3⟩ := q2
              rw [hM] at h
              dsimp only at h
              injection h with h2
              subst h2
              exact .arrCons h2p (ih _ _ hM)
          | bool b =>
            dsimp only at h
            cases hM : createManyItems cfg pfx pkc model xs k2 with
            | error e => rw [hM] at h; simp at h
            | ok q2 =>
              obtain ⟨ys, k3⟩ := q2
              rw [hM] at h
              dsimp only at h
              injection h with h2
              subst h2
              exact .arrCons h2p (ih _ _ hM)
          | num n =>
            dsimp only at h
            cases hM : createManyItems cfg pfx pkc model xs k2 with
            | error e => rw [hM] at h; simp at h
            | ok q2 =>
              obtain ⟨ys, k3⟩ := q2
              rw [hM] at h
              dsimp only at h
              injection h with h2
              subst h2
              exact .arrCons h2p (ih _ _ hM)
          | str st =>
            dsimp only at h
            cases hM : createManyItems cfg pfx pkc model xs k2 with
            | error e => rw [hM] at h; simp at h
            | ok q2 =>
              obtain ⟨ys, k3⟩ := q2
              rw [hM] at h
              dsimp only at h
              injection h with h2
              subst h2
              exact .arrCons h2p (ih _ _ hM)
      | str st =>
        dsimp only at h
        by_cases hpn : (¬ cfg.processNested = true)
        · rw [if_pos hpn] at h
          cases hM : createManyItems cfg pfx pkc model xs (k) with
          | error e => rw [hM] at h; simp at h
          | ok q =>
            obtain ⟨ys, k2⟩ := q
            rw [hM] at h
            dsimp only at h
            injection h with h2
            subst h2
            exact .arrCons (pres_refl pkc (Json.str st)) (ih _ _ hM)
        · rw [if_neg hpn] at h
          cases hT : pncTop cfg (Json.str st) model (k) with
          | error e => rw [hT] at h; simp at h
          | ok q =>
            obtain ⟨p, k2⟩ := q
            rw [hT] at h
            dsimp only at h
            have h2p := pres_trans (pres_refl pkc (Json.str st)) (pncTop_pres hpk hT)
            cases p with
          | obj gs =>
            dsimp only at h
            cases hM : createManyItems cfg pfx pkc model xs
                (withGeneratedId cfg pfx pkc gs k2).2 with
            | error e => rw [hM] at h; simp at h
            | ok q2 =>
              obtain ⟨ys, k3⟩ := q2
              rw [hM] at h
              dsimp only at h
              injection h with h2
              subst h2
              exact .arrCons (pres_stamp hpfx h2p k2) (ih _ _ hM)
          | arr ws =>
            dsimp only at h
            cases hM : createManyItems cfg pfx pkc model xs k2 with
            | error e => rw [hM] at h; simp at h
            | ok q2 =>
              obtain ⟨ys, k3⟩ := q2
              rw [hM] at h
              dsimp only at h
              injection h with h2
              subst h2
              exact .arrCons h2p (ih _ _ hM)
          | null =>
            dsimp only at h
            cases hM : createManyItems cfg pfx pkc model xs k2 with
            | error e => rw [hM] at h; simp at h
            | ok q2 =>
              obtain ⟨ys, k3⟩ := q2
              rw [hM] at h
              dsimp only at h
              injection h with h2
              subst h2
              exact .arrCons h2p (ih _ _ hM)
          | undef =>
            dsimp only at h
            cases hM : createManyItems cfg pfx pkc model xs k2 with
            | error e => rw [hM] at h; simp at h
            | ok q2 =>
              obtain ⟨ys, k3⟩ := q2
              rw [hM] at h
              dsimp only at h
              injection h with h2
              subst h2
              exact .arrCons h2p (ih _ _ hM)
          | bool b =>
            dsimp only at h
            cases hM : createManyItems cfg pfx pkc model xs k2 with
            | error e => rw [hM] at h; simp at h
            | ok q2 =>
              obtain ⟨ys, k3⟩ := q2
              rw [hM] at h
              dsimp only at h
              injection h with h2
              subst h2
              exact .arrCons h2p (ih _ _ hM)
          | num n =>
            dsimp only at h
            cases hM : createManyItems cfg pfx pkc model xs k2 with
            | error e => rw [hM] at h; simp at h
            | ok q2 =>
              obtain ⟨ys, k3⟩ := q2
              rw [hM] at h
              dsimp only at h
              injection h with h2
              subst h2
              exact .arrCons h2p (ih _ _ hM)
          | str st =>
            dsimp only at h
            cases hM : createManyItems cfg pfx pkc model xs k2 with
            | error e => rw [hM] at h; simp at h
            | ok q2 =>
              obtain ⟨ys, k3⟩ := q2
              rw [hM] at h
              dsimp only at h
              injection h with h2
              subst h2
              exact .arrCons h2p (ih _ _ hM)

/-- C3 wrapper for the `createMany` handler. -/
theorem createManyHandler_pres (cfg : ExtConfig) (pkc : String)
    (hpk : ∀ m, cfg.pkOf m = pkc) {model : String} {data : Json} {k : Nat}
    {r : Json × Nat} (h : createManyHandler cfg model data k = .ok r) :
    Pres pkc data r.1 := by
  unfold createManyHandler at h
  cases hEn : ensurePrefixForModel cfg model with
  | error e => rw [hEn] at h; simp at h
  | ok pfx =>
    have hpfx := ensure_ok_ne hEn
    rw [hEn] at h
    dsimp only at h
    rw [hpk model] at h
    cases data with
    | undef =>
      injection h with h2
      subst h2
      exact pres_refl _ _
    | null =>
      injection h with h2
      subst h2
      exact pres_refl _ _
    | arr xs =>
      dsimp only at h
      cases hM : createManyItems cfg pfx pkc model xs k with
      | error e => rw [hM] at h; simp at h
      | ok q =>
        obtain ⟨ys, k1⟩ := q
        rw [hM] at h
        dsimp only at h
        injection h with h2
        subst h2
        exact createManyItems_pres cfg pkc hpk pfx model hpfx xs k (ys, k1) hM
    | obj fs =>
      dsimp only at h
      by_cases hpn : cfg.processNested = true
      · rw [if_pos hpn] at h
        cases hT : pncTop cfg (Json.obj fs) model k with
        | error e => rw [hT] at h; simp at h
        | ok q =>
          obtain ⟨p, k1⟩ := q
          rw [hT] at h
          dsimp only at h
          have h2p := pncTop_pres hpk hT
          cases p with
        | obj gs =>
          injection h with h2
          subst h2
          exact pres_stamp hpfx h2p k1
        | arr ws =>
          injection h with h2
          subst h2
          exact h2p
        | null =>
          injection h with h2
          subst h2
          exact h2p
        | undef =>
          injection h with h2
          subst h2
          exact h2p
        | bool b2 =>
          injection h with h2
          subst h2
          exact h2p
        | num n2 =>
          injection h with h2
          subst h2
          exact h2p
        | str st2 =>
          injection h with h2
          subst h2
          exact h2p
      · rw [if_neg hpn] at h
        injection h with h2
        subst h2
        exact pres_refl _ _
    | bool b =>
      dsimp only at h
      by_cases hpn : cfg.processNested = true
      · rw [if_pos hpn] at h
        cases hT : pncTop cfg (Json.bool b) model k with
        | error e => rw [hT] at h; simp at h
        | ok q =>
          obtain ⟨p, k1⟩ := q
          rw [hT] at h
          dsimp only at h
          have h2p := pncTop_pres hpk hT
          cases p with
        | obj gs =>
          injection h with h2
          subst h2
          exact pres_stamp hpfx h2p k1
        | arr ws =>
          injection h with h2
          subst h2
          exact h2p
        | null =>
          injection h with h2
          subst h2
          exact h2p
        | undef =>
          injection h with h2
          subst h2
          exact h2p
        | bool b2 =>
          injection h with h2
          subst h2
          exact h2p
        | num n2 =>
          injection h with h2
          subst h2
          exact h2p
        | str st2 =>
          injection h with h2
          subst h2
          exact h2p
      · rw [if_neg hpn] at h
        injection h with h2
        subst h2
        exact pres_refl _ _
    | num n =>
      dsimp only at h
      by_cases hpn : cfg.processNested = true
      · rw [if_pos hpn] at h
        cases hT : pncTop cfg (Json.num n) model k with
        | error e => rw [hT] at h; simp at h
        | ok q =>
          obtain ⟨p, k1⟩ := q
          rw [hT] at h
          dsimp only at h
          have h2p := pncTop_pres hpk hT
          cases p with
        | obj gs =>
          injection h with h2
          subst h2
          exact pres_stamp hpfx h2p k1
        | arr ws =>
          injection h with h2
          subst h2
          exact h2p
        | null =>
          injection h with h2
          subst h2
          exact h2p
        | undef =>
          injection h with h2
          subst h2
          exact h2p
        | bool b2 =>
          injection h with h2
          subst h2
          exact h2p
        | num n2 =>
          injection h with h2
          subst h2
          exact h2p
        | str st2 =>
          injection h with h2
          subst h2
          exact h2p
      · rw [if_neg hpn] at h
        injection h with h2
        subst h2
        exact pres_refl _ _
    | str st =>
      dsimp only at h
      by_cases hpn : cfg.processNested = true
      · rw [if_pos hpn] at h
        cases hT : pncTop cfg (Json.str st) model k with
        | error e => rw [hT] at h; simp at h
        | ok q =>
          obtain ⟨p, k1⟩ := q
          rw [hT] at h
          dsimp only at h
          have h2p := pncTop_pres hpk hT
          cases p with
        | obj gs =>
          injection h with h2
          subst h2
          exact pres_stamp hpfx h2p k1
        | arr ws =>
          injection h with h2
          subst h2
          exact h2p
        | null =>
          injection h with h2
          subst h2
          exact h2p
        | undef =>
          injection h with h2
          subst h2
          exact h2p
        | bool b2 =>
          injection h with h2
          subst h2
          exact h2p
        | num n2 =>
          injection h with h2
          subst h2
          exact h2p
        | str st2 =>
          injection h with h2
          subst h2
          exact h2p
      · rw [if_neg hpn] at h
        injection h with h2
        subst h2
        exact pres_refl _ _

theorem pres_obj_out {pkc : String} {fs : List (String × Json)} {w : Json}
    (h : Pres pkc (.obj fs) w) : ∃ gs, w = .obj gs := by
  cases h with
  | primRefl _ hp => simp [isPrimB] at hp
  | primStamp _ _ hm _ => simp [isMissingVal] at hm
  | obj F hmem hrel => exact ⟨_, rfl⟩

theorem isMissingId_false_of_lookup {pk : String} {gs : List (String × Json)}
    {s : String} (hl : lookupF gs pk = some (.str s)) (hs : s ≠ "") :
    isMissingId pk gs = false := by
  unfold isMissingId
  rw [hl]
  cases hsl : s.length with
  | zero => exact absurd (string_length_zero hsl) hs
  | succ n => simp [hsl]

/-- A concrete configuration for the C3 scenarios: table prefixes for
`User` and `Post`, no fallback, nested processing on, primary key `id`
everywhere, no DMMF, constant body stream `"b"`. -/
def c3cfg : ExtConfig :=
  ⟨[("User", "usr_"), ("Post", "p_")], none, true, fun _ => "id",
    fun _ _ => none, fun _ => "b"⟩

/-- C3 counterexample: a root payload whose `id` is an *object* — a
non-missing primary-key value — is not "left completely unchanged": the
rewrite keeps the `id` binding but still walks into it and stamps the
creation point found inside, so the stored value differs after the
rewrite. -/
theorem c3_counterexample :
    isMissingId "id"
      [("id", Json.obj [("posts", Json.obj [("create", Json.obj [])])])] = false ∧
    createHandler c3cfg "User"
      (.obj [("id", .obj [("posts", .obj [("create", .obj [])])])]) 0 =
      .ok (.obj [("id", .obj [("posts", .obj [("create",
        .obj [("id", .str "p_b")])])])], 1) ∧
    Json.obj [("posts", Json.obj [("create", Json.obj [("id", Json.str "p_b")])])] ≠
      Json.obj [("posts", Json.obj [("create", Json.obj [])])] := by
  refine ⟨by simp [isMissingId, lookupF], ?_, by simp⟩
  simp +decide [createHandler, pncTop, jsize, jsizeList, jsizeFields,
    processNestedCreates, pncFields, pncEntry, pncList, ensurePrefixForModel,
    prefixOf, lookupPm, withGeneratedId, isMissingId, lookupF, setF, getF,
    truthy, typeofObject, hasCreateKey, hasCreateManyKey, hasCocKey,
    hasUpsertKey, resolveNestedModelInfo, inferModelNameFromRelation,
    capitalize, strEndsWith, strDropRight, stampTop, c3cfg]

/-- C3 (amended): when every model's primary key is `id`, a successful
`create` rewrite (i) returns every non-empty *string* root identifier
unchanged under `id`, (ii) stamps a missing root identifier with the
resolved model prefix and a generated body, and (iii) relates input to
output by `Pres "id"` — at every depth, a non-empty string identifier is
neither mutated nor removed (`pres_id_lookup`), no field is dropped
(`pres_mem`), and array entries disappear only when nullish; the
`createMany` rewrite satisfies the same depth property. An object-valued
identifier keeps its binding but its interior is still processed
(`c3_counterexample`). -/
theorem c3_identifier_preservation (cfg : ExtConfig)
    (hpk : ∀ m, cfg.pkOf m = "id")
    (model : String) (fs : List (String × Json)) (data : Json)
    (k k2 : Nat) (r r2 : Json × Nat)
    (h : createHandler cfg model (.obj fs) k = .ok r)
    (hm : createManyHandler cfg model data k2 = .ok r2) :
    (∀ s : String, s ≠ "" → lookupF fs "id" = some (.str s) →
      ∃ gs, r.1 = .obj gs ∧ lookupF gs "id" = some (.str s)) ∧
    (isMissingId "id" fs = true →
      ∃ pfx gs, ensurePrefixForModel cfg model = .ok pfx ∧
        r.1 = .obj gs ∧ lookupF gs "id" = some (.str (pfx ++ cfg.bodies k))) ∧
    Pres "id" (.obj fs) r.1 ∧ Pres "id" data r2.1 := by
  have hpres := createHandler_pres cfg "id" hpk h
  refine ⟨?_, ?_, hpres, createManyHandler_pres cfg "id" hpk hm⟩
  · intro s hs hl
    obtain ⟨gs0, hgs0⟩ := pres_obj_out hpres
    refine ⟨gs0, hgs0, ?_⟩
    rw [hgs0] at hpres
    exact pres_id_lookup hpres s hs hl
  · intro hmiss
    unfold createHandler at h
    cases hEn : ensurePrefixForModel cfg model with
    | error e => rw [hEn] at h; simp at h
    | ok pfx =>
      have hpfx := ensure_ok_ne hEn
      have hnew : (pfx ++ cfg.bodies k) ≠ "" := append_ne_empty hpfx
      rw [hEn] at h
      dsimp only at h
      rw [hpk model] at h
      rw [withGeneratedId, if_pos hmiss] at h
      dsimp only at h
      by_cases hpn : cfg.processNested = true
      · rw [if_pos hpn] at h
        cases hT : pncTop cfg
            (Json.obj (setF fs "id" (Json.str (pfx ++ cfg.bodies k))))
            model (k + 1) with
        | error e => rw [hT] at h; simp at h
        | ok q =>
          obtain ⟨d2, kk2⟩ := q
          rw [hT] at h
          dsimp only at h
          have hp2 : Pres "id"
              (Json.obj (setF fs "id" (Json.str (pfx ++ cfg.bodies k)))) d2 :=
            pncTop_pres hpk hT
          obtain ⟨gs2, hgs2⟩ := pres_obj_out hp2
          subst hgs2
          dsimp only at h
          have hid2 : lookupF gs2 "id" = some (.str (pfx ++ cfg.bodies k)) :=
            pres_id_lookup hp2 _ hnew (lookupF_setF_self fs "id" _)
          have hnm : ¬ (isMissingId "id" gs2 = true) := by
            rw [isMissingId_false_of_lookup hid2 hnew]
            simp
          rw [withGeneratedId, if_neg hnm] at h
          dsimp only at h
          injection h with h2
          subst h2
          exact ⟨pfx, gs2, rfl, rfl, hid2⟩
      · rw [if_neg hpn] at h
        injection h with h2
        subst h2
        exact ⟨pfx, setF fs "id" (.str (pfx ++ cfg.bodies k)), rfl, rfl,
          lookupF_setF_self _ _ _⟩

theorem c3_witness :
    ((∀ m, c3cfg.pkOf m = "id") ∧
      createHandler c3cfg "User" (.obj [("email", .str "e")]) 0 =
        .ok (.obj [("email", .str "e"), ("id", .str "usr_b")], 1) ∧
      createManyHandler c3cfg "User" (.arr [.obj []]) 0 =
        .ok (.arr [.obj [("id", .str "usr_b")]], 1)) ∧
    ((∀ s : String, s ≠ "" →
        lookupF [("email", Json.str "e")] "id" = some (.str s) →
        ∃ gs, Json.obj [("email", Json.str "e"), ("id", Json.str "usr_b")] =
            .obj gs ∧ lookupF gs "id" = some (.str s)) ∧
      (isMissingId "id" [("email", Json.str "e")] = true →
        ∃ pfx gs, ensurePrefixForModel c3cfg "User" = .ok pfx ∧
          Json.obj [("email", Json.str "e"), ("id", Json.str "usr_b")] =
            .obj gs ∧
          lookupF gs "id" = some (.str (pfx ++ c3cfg.bodies 0))) ∧
      Pres "id" (.obj [("email", .str "e")])
        (.obj [("email", .str "e"), ("id", .str "usr_b")]) ∧
      Pres "id" (.arr [.obj []]) (.arr [.obj [("id", .str "usr_b")]])) := by
  have h1 : createHandler c3cfg "User" (.obj [("email", .str "e")]) 0 =
      .ok (.obj [("email", .str "e"), ("id", .str "usr_b")], 1) := by
    simp +decide [createHandler, pncTop, jsize, jsizeList, jsizeFields,
    processNestedCreates, pncFields, pncEntry, pncList, ensurePrefixForModel,
    prefixOf, lookupPm, withGeneratedId, isMissingId, lookupF, setF, getF,
    truthy, typeofObject, hasCreateKey, hasCreateManyKey, hasCocKey,
    hasUpsertKey, resolveNestedModelInfo, inferModelNameFromRelation,
    capitalize, strEndsWith, strDropRight, stampTop, c3cfg]
  have h2 : createManyHandler c3cfg "User" (.arr [.obj []]) 0 =
      .ok (.arr [.obj [("id", .str "usr_b")]], 1) := by
    simp +decide [createManyHandler, createManyItems, isNullish, pncTop, jsize,
      jsizeList, jsizeFields, processNestedCreates, pncFields, pncEntry, pncList,
      ensurePrefixForModel, prefixOf, lookupPm, withGeneratedId, isMissingId,
      lookupF, setF, getF, truthy, typeofObject, hasCreateKey, hasCreateManyKey,
      hasCocKey, hasUpsertKey, resolveNestedModelInfo, inferModelNameFromRelation,
      capitalize, strEndsWith, strDropRight, stampTop, c3cfg]
  exact ⟨⟨fun _ => rfl, h1, h2⟩,
    c3_identifier_preservation c3cfg (fun _ => rfl) "User" _ _ 0 0 _ _ h1 h2⟩

/-! ### C5: abort on missing prefix -/

/-- Configuration for the C5 scenarios: prefixes for `User` and `A`
only, no fallback, nested processing on. -/
def c5cfg : ExtConfig :=
  ⟨[("User", "usr_"), ("A", "a_")], none, true, fun _ => "id",
    fun _ _ => none, fun _ => "b"⟩

/-- C5 counterexample: a nested creation point hidden behind a *sibling*
field of a recognized `create` marker is never visited: although prefix
resolution for its model (`posts` → `Post`) fails, the rewrite returns
successfully and leaves that creation point unstamped — it neither
aborts nor stamps every nested creation point. -/
theorem c5_counterexample :
    ensurePrefixForModel c5cfg "Post" = .error (.prefixNotDefined "Post") ∧
    inferModelNameFromRelation "posts" = "Post" ∧
    createHandler c5cfg "User"
      (.obj [("a", .obj [("create", .obj []),
        ("hidden", .obj [("posts", .obj [("create", .obj [])])])])]) 0 =
      .ok (.obj [("a", .obj [("create", .obj [("id", .str "a_b")]),
        ("hidden", .obj [("posts", .obj [("create", .obj [])])])]),
        ("id", .str "usr_b")], 2) := by
  refine ⟨by simp +decide [ensurePrefixForModel, prefixOf, lookupPm, c5cfg],
    by simp +decide [inferModelNameFromRelation, capitalize, strEndsWith,
      strDropRight], ?_⟩
  simp +decide [createHandler, pncTop, jsize, jsizeList, jsizeFields,
    processNestedCreates, pncFields, pncEntry, pncList, ensurePrefixForModel,
    prefixOf, lookupPm, withGeneratedId, isMissingId, lookupF, setF, getF,
    truthy, typeofObject, hasCreateKey, hasCreateManyKey, hasCocKey,
    hasUpsertKey, resolveNestedModelInfo, inferModelNameFromRelation,
    capitalize, strEndsWith, strDropRight, stampTop, c5cfg]

/-- C5 (amended): (A)/(B) every error either handler reports is a
prefix-resolution failure rendering the documented message; (C) root
resolution failure aborts both handlers before any data is touched;
(D) a *visited* nested creation point whose resolution fails aborts its
entry with that error; (E) entry and field-walk errors propagate
outward unchanged, and (F) up through the `create` handler, so a failed
pass never returns a tree; (G) any creation target the walk stamps ends
up with a present (non-missing) identifier. Creation points hidden
behind siblings of a recognized marker are not visited
(`c5_counterexample`). -/
theorem c5_missing_prefix_abort (cfg : ExtConfig) :
    (∀ model data k e, createHandler cfg model data k = .error e →
      ∃ m, e = ExtErr.prefixNotDefined m ∧
        errMessage e = "Prefix not defined or invalid for model \"" ++ m ++ "\".") ∧
    (∀ model data k e, createManyHandler cfg model data k = .error e →
      ∃ m, e = ExtErr.prefixNotDefined m ∧
        errMessage e = "Prefix not defined or invalid for model \"" ++ m ++ "\".") ∧
    (∀ model data k, prefixOf cfg model = none →
      createHandler cfg model data k = .error (.prefixNotDefined model) ∧
      createManyHandler cfg model data k = .error (.prefixNotDefined model)) ∧
    (∀ fuel key fs pm k e, hasCreateKey fs = true →
      resolveNestedModelInfo cfg key pm = .error e →
      pncEntry cfg (fuel + 1) key (.obj fs) pm k = .error e) ∧
    (∀ fuel key v fs pm k e, pncEntry cfg fuel key v pm k = .error e →
      pncFields cfg (fuel + 1) ((key, v) :: fs) pm k = .error e) ∧
    (∀ fuel fs pm k e, pncFields cfg fuel fs pm k = .error e →
      processNestedCreates cfg (fuel + 1) (.obj fs) pm k = .error e) ∧
    (∀ model fs k pfx e, ensurePrefixForModel cfg model = .ok pfx →
      cfg.processNested = true →
      pncTop cfg (Json.obj (withGeneratedId cfg pfx (cfg.pkOf model) fs k).1)
        model ((withGeneratedId cfg pfx (cfg.pkOf model) fs k).2) = .error e →
      createHandler cfg model (.obj fs) k = .error e) ∧
    (∀ pk pfx gs k, pfx ≠ "" →
      isMissingId pk (withGeneratedId cfg pfx pk gs k).1 = false) := by
  refine ⟨?_, ?_, ?_, ?_, ?_, ?_, ?_, ?_⟩
  · intro model data k e h
    exact createHandler_err h
  · intro model data k e h
    exact createManyHandler_err h
  · intro model data k hp
    have hEn : ensurePrefixForModel cfg model = .error (.prefixNotDefined model) := by
      unfold ensurePrefixForModel
      rw [hp]
    constructor
    · unfold createHandler
      rw [hEn]
    · unfold createManyHandler
      rw [hEn]
  · intro fuel key fs pm k e hck he
    have hg : ¬ (¬ truthy (Json.obj fs) ∨ ¬ typeofObject (Json.obj fs)) := by
      simp [truthy, typeofObject]
    simp only [pncEntry]
    rw [if_neg hg]
    rw [if_pos hck, he]
  · intro fuel key v fs pm k e hE
    simp only [pncFields]
    rw [hE]
  · intro fuel fs pm k e hF
    simp only [processNestedCreates]
    rw [hF]
  · intro model fs k pfx e hEn hpn hT
    unfold createHandler
    rw [hEn]
    dsimp only
    rw [if_pos hpn, hT]
  · intro pk pfx gs k hpfx
    unfold withGeneratedId
    by_cases hm : isMissingId pk gs = true
    · rw [if_pos hm]
      exact isMissingId_false_of_lookup (lookupF_setF_self gs pk _)
        (append_ne_empty hpfx)
    · rw [if_neg hm]
      exact Bool.eq_false_iff.mpr hm

theorem c5_witness :
    prefixOf c5cfg "Widget" = none ∧
    createHandler c5cfg "Widget" (.obj []) 0 =
      .error (.prefixNotDefined "Widget") ∧
    createManyHandler c5cfg "Widget" (.obj []) 0 =
      .error (.prefixNotDefined "Widget") ∧
    errMessage (.prefixNotDefined "Widget") =
      "Prefix not defined or invalid for model \"Widget\"." := by
  have hp : prefixOf c5cfg "Widget" = none := by
    simp +decide [prefixOf, lookupPm, c5cfg]
  have habort := (c5_missing_prefix_abort c5cfg).2.2.1 "Widget" (.obj []) 0 hp
  obtain ⟨m, hm, hmsg⟩ :=
    (c5_missing_prefix_abort c5cfg).1 "Widget" (.obj []) 0 _ habort.1
  injection hm with hm2
  subst hm2
  exact ⟨hp, habort.1, habort.2, hmsg⟩

/-! ### C4: the concrete nested-create scenario -/

/-- The C4 configuration over an arbitrary body stream: table
`{User: "usr_", Profile: "prof_"}`, no fallback, nested processing
enabled. -/
def c4cfg (bodies : Nat → String) : ExtConfig :=
  ⟨[("User", "usr_"), ("Profile", "prof_")], none, true, fun _ => "id",
    fun _ _ => none, bodies⟩

/-- The spec's regex `^<pfx>[0-9A-Za-z]\x7b27\x7d$`: the prefix followed by a
27-character base62 body. -/
def matchesPrefixedId (pfx s : String) : Prop :=
  ∃ body, s = pfx ++ body ∧ validBody body

/-- C4: on `{email: "a@b.com", profile: {create: {bio: "x"}}}` for
`User` with the table `{User: "usr_", Profile: "prof_"}` and nested
processing on, the rewrite stamps the root with `usr_` plus the first
generated body and `profile.create` with `prof_` plus the second, keeps
`email` and `bio` unchanged, and both identifiers match their
`^pfx[0-9A-Za-z]\x7b27\x7d$` pattern. -/
theorem c4_nested_create (bodies : Nat → String)
    (hb : ∀ n, validBody (bodies n)) :
    createHandler (c4cfg bodies) "User"
      (.obj [("email", .str "a@b.com"),
        ("profile", .obj [("create", .obj [("bio", .str "x")])])]) 0 =
      .ok (.obj [("email", .str "a@b.com"),
        ("profile", .obj [("create", .obj [("bio", .str "x"),
          ("id", .str ("prof_" ++ bodies 1))])]),
        ("id", .str ("usr_" ++ bodies 0))], 2) ∧
    matchesPrefixedId "usr_" ("usr_" ++ bodies 0) ∧
    matchesPrefixedId "prof_" ("prof_" ++ bodies 1) := by
  refine ⟨?_, ⟨bodies 0, rfl, hb 0⟩, ⟨bodies 1, rfl, hb 1⟩⟩
  have hlen : ("usr_" ++ bodies 0).length ≠ 0 := by
    rw [String.length_append, (hb 0).1]
    decide
  simp +decide [createHandler, pncTop, jsize, jsizeList, jsizeFields,
    processNestedCreates, pncFields, pncEntry, pncList, ensurePrefixForModel,
    prefixOf, lookupPm, withGeneratedId, isMissingId, lookupF, setF, getF,
    truthy, typeofObject, hasCreateKey, hasCreateManyKey, hasCocKey,
    hasUpsertKey, resolveNestedModelInfo, inferModelNameFromRelation,
    capitalize, strEndsWith, strDropRight, stampTop, c4cfg, hlen]

/-- A concrete 27-character base62 body used to instantiate C4. -/
def c4body : String := "000000000000000000000000000"

theorem c4_witness :
    (∀ n : Nat, validBody ((fun _ => c4body) n)) ∧
    (createHandler (c4cfg (fun _ => c4body)) "User"
      (.obj [("email", .str "a@b.com"),
        ("profile", .obj [("create", .obj [("bio", .str "x")])])]) 0 =
      .ok (.obj [("email", .str "a@b.com"),
        ("profile", .obj [("create", .obj [("bio", .str "x"),
          ("id", .str ("prof_" ++ (fun _ => c4body) 1))])]),
        ("id", .str ("usr_" ++ (fun _ => c4body) 0))], 2) ∧
    matchesPrefixedId "usr_" ("usr_" ++ (fun _ => c4body) 0) ∧
    matchesPrefixedId "prof_" ("prof_" ++ (fun _ => c4body) 1)) := by
  have hv : ∀ n : Nat, validBody ((fun _ => c4body) n) := by
    intro n
    show validBody c4body
    constructor
    · decide
    · decide
  exact ⟨hv, c4_nested_create (fun _ => c4body) hv⟩

/-! ### C6: null-tolerant createMany -/

/-- A stamped creation target always carries an identifier afterwards
(`withGeneratedId` either finds one present or writes a non-empty
string). -/
theorem withGen_stamped (cfg : ExtConfig) (pk pfx : String)
    (gs : List (String × Json)) (k : Nat) (hpfx : pfx ≠ "") :
    isMissingId pk (withGeneratedId cfg pfx pk gs k).1 = false := by
  unfold withGeneratedId
  by_cases hm : isMissingId pk gs = true
  · rw [if_pos hm]
    exact isMissingId_false_of_lookup (lookupF_setF_self gs pk _)
      (append_ne_empty hpfx)
  · rw [if_neg hm]
    exact Bool.eq_false_iff.mpr hm

theorem withGen_noop {cfg : ExtConfig} {pfx pk : String}
    {gs : List (String × Json)} (k : Nat) (h : isMissingId pk gs = false) :
    withGeneratedId cfg pfx pk gs k = (gs, k) := by
  simp [withGeneratedId, h]

theorem withGen_stamp {cfg : ExtConfig} {pfx pk : String}
    {gs : List (String × Json)} (k : Nat) (h : isMissingId pk gs = true) :
    withGeneratedId cfg pfx pk gs k =
      (setF gs pk (.str (pfx ++ cfg.bodies k)), k + 1) := by
  simp [withGeneratedId, h]

/-- Fields all of whose values are primitive (a "flat record"). -/
def flatFields : List (String × Json) → Bool
  | [] => true
  | (_, v) :: fs => isPrimB v && flatFields fs

/-- A flat-record object. -/
def isFlatObj : Json → Bool
  | .obj fs => flatFields fs
  | _ => false

/-- The entries loop leaves a primitive value untouched: every primitive
fails the `value && typeof value === "object"` guard. -/
theorem pncEntry_prim (cfg : ExtConfig) {v : Json} (hp : isPrimB v = true)
    (fuel : Nat) (key pm : String) (k : Nat) :
    pncEntry cfg (fuel + 1) key v pm k = .ok (v, k) := by
  cases v with
  | arr xs => simp [isPrimB] at hp
  | obj fs => simp [isPrimB] at hp
  | null => simp [pncEntry, truthy]
  | undef => simp [pncEntry, truthy]
  | bool b => simp [pncEntry, typeofObject]
  | num n => simp [pncEntry, typeofObject]
  | str s => simp [pncEntry, typeofObject]

/-- The field walk returns a flat record unchanged. -/
theorem pncFields_flat (cfg : ExtConfig) :
    ∀ fuel fs pm k, jsizeFields fs ≤ fuel → flatFields fs = true →
      pncFields cfg fuel fs pm k = .ok (fs, k) := by
  intro fuel
  induction fuel with
  | zero =>
    intro fs pm k hsz hf
    cases fs with
    | nil => simp [pncFields]
    | cons f fs =>
      obtain ⟨k0, v0⟩ := f
      have := jsize_pos v0
      simp [jsizeFields] at hsz
  | succ fuel ih =>
    intro fs pm k hsz hf
    cases fs with
    | nil => simp [pncFields]
    | cons f fs =>
      obtain ⟨key0, v0⟩ := f
      simp only [flatFields, Bool.and_eq_true] at hf
      simp only [jsizeFields] at hsz
      have hv := jsize_pos v0
      cases fuel with
      | zero => omega
      | succ f2 =>
        simp only [pncFields]
        rw [pncEntry_prim cfg hf.1 f2 key0 pm k]
        dsimp only
        rw [ih fs pm k (by omega) hf.2]

/-- The whole nested walk returns a flat record unchanged. -/
theorem pncTop_flat (cfg : ExtConfig) {fs : List (String × Json)}
    (hf : flatFields fs = true) (pm : String) (k : Nat) :
    pncTop cfg (.obj fs) pm k = .ok (.obj fs, k) := by
  unfold pncTop
  rw [show jsize (Json.obj fs) = jsizeFields fs + 1 from by
    simp [jsize]; omega]
  simp only [processNestedCreates]
  rw [pncFields_flat cfg (jsizeFields fs) fs pm k le_rfl hf]

theorem flatFields_setF {fs : List (String × Json)} (hf : flatFields fs = true)
    (key : String) {v : Json} (hp : isPrimB v = true) :
    flatFields (setF fs key v) = true := by
  induction fs with
  | nil => simp [setF, flatFields, hp]
  | cons f fs ih =>
    obtain ⟨k0, w0⟩ := f
    simp only [flatFields, Bool.and_eq_true] at hf
    by_cases hk : k0 = key
    · rw [setF, if_pos hk]
      simp [flatFields, hp, hf.2]
    · rw [setF, if_neg hk]
      simp [flatFields, hf.1, ih hf.2]

theorem flatFields_withGen {cfg : ExtConfig} {pfx pk : String}
    {fs : List (String × Json)} (hf : flatFields fs = true) (k : Nat) :
    flatFields (withGeneratedId cfg pfx pk fs k).1 = true := by
  unfold withGeneratedId
  by_cases hm : isMissingId pk fs = true
  · rw [if_pos hm]
    exact flatFields_setF hf pk rfl
  · rw [if_neg hm]
    exact hf

/-- What the amended C6 claim says the batch rewrite computes, spelled
out as a function (a spec-modelled definition for the refinement
comparison): null/undefined entries are removed, every surviving
flat-record entry is stamped when its identifier is missing, everything
else passes through; order of survivors is kept. -/
def flatBatchRewrite (cfg : ExtConfig) (pfx pk : String) :
    List Json → Nat → List Json × Nat
  | [], k => ([], k)
  | x :: xs, k =>
    if isNullish x then flatBatchRewrite cfg pfx pk xs k
    else
      match x with
      | .obj fs =>
        let p := withGeneratedId cfg pfx pk fs k
        let r := flatBatchRewrite cfg pfx pk xs p.2
        (Json.obj p.1 :: r.1, r.2)
      | other =>
        let r := flatBatchRewrite cfg pfx pk xs k
        (other :: r.1, r.2)

/-- On flat batches the item loop computes exactly `flatBatchRewrite`,
whether or not nested processing is enabled. -/
theorem createManyItems_flat (cfg : ExtConfig) (pfx pk model : String)
    (hpfx : pfx ≠ "") :
    ∀ xs k, (∀ x ∈ xs, isNullish x = true ∨ isFlatObj x = true) →
      createManyItems cfg pfx pk model xs k =
        .ok (flatBatchRewrite cfg pfx pk xs k) := by
  intro xs
  induction xs with
  | nil =>
    intro k hflat
    simp [createManyItems, flatBatchRewrite]
  | cons x xs ih =>
    intro k hflat
    have hx := hflat x (by simp)
    have hxs : ∀ y ∈ xs, isNullish y = true ∨ isFlatObj y = true :=
      fun y hy => hflat y (by simp [hy])
    simp only [createManyItems, flatBatchRewrite]
    by_cases hn : isNullish x = true
    · rw [if_pos hn, if_pos hn]
      exact ih k hxs
    · rw [if_neg hn, if_neg hn]
      have hfx : isFlatObj x = true := by
        rcases hx with h | h
        · exact absurd h hn
        · exact h
      cases x with
      | obj fs =>
        have hf : flatFields fs = true := by simpa [isFlatObj] using hfx
        dsimp only
        rcases hfb : flatBatchRewrite cfg pfx pk xs
            ((withGeneratedId cfg pfx pk fs k).2) with ⟨ys, k2⟩
        by_cases hpn : (¬ cfg.processNested = true)
        · rw [if_pos hpn]
          rw [ih _ hxs, hfb]
        · rw [if_neg hpn]
          rw [pncTop_flat cfg (flatFields_withGen hf k) model
            ((withGeneratedId cfg pfx pk fs k).2)]
          dsimp only
          rw [withGen_noop _ (withGen_stamped cfg pk pfx fs k hpfx)]
          dsimp only
          rw [ih _ hxs, hfb]
      | arr zs => simp [isFlatObj] at hfx
      | null => simp [isFlatObj] at hfx
      | undef => simp [isFlatObj] at hfx
      | bool b => simp [isFlatObj] at hfx
      | num n => simp [isFlatObj] at hfx
      | str st => simp [isFlatObj] at hfx

theorem flatBatchRewrite_length (cfg : ExtConfig) (pfx pk : String) :
    ∀ xs k, (flatBatchRewrite cfg pfx pk xs k).1.length =
      (xs.filter (fun x => !isNullish x)).length := by
  intro xs
  induction xs with
  | nil => intro k; simp [flatBatchRewrite]
  | cons x xs ih =>
    intro k
    by_cases hn : isNullish x = true
    · simp [flatBatchRewrite, List.filter_cons, hn, ih]
    · have hn2 : isNullish x = false := Bool.eq_false_iff.mpr hn
      cases x <;> simp [flatBatchRewrite, List.filter_cons, hn2, ih]

theorem flatBatchRewrite_stamped (cfg : ExtConfig) (pfx pk : String)
    (hpfx : pfx ≠ "") :
    ∀ xs k, (∀ x ∈ xs, isNullish x = true ∨ isFlatObj x = true) →
      ∀ y ∈ (flatBatchRewrite cfg pfx pk xs k).1,
        ∃ gs, y = .obj gs ∧ isMissingId pk gs = false := by
  intro xs
  induction xs with
  | nil =>
    intro k hflat y hy
    simp [flatBatchRewrite] at hy
  | cons x xs ih =>
    intro k hflat y hy
    have hx := hflat x (by simp)
    have hxs : ∀ z ∈ xs, isNullish z = true ∨ isFlatObj z = true :=
      fun z hz => hflat z (by simp [hz])
    by_cases hn : isNullish x = true
    · have heq : flatBatchRewrite cfg pfx pk (x :: xs) k =
          flatBatchRewrite cfg pfx pk xs k := by
        cases x with
        | null => rfl
        | undef => rfl
        | arr zs => simp [isNullish] at hn
        | obj fs => simp [isNullish] at hn
        | bool b => simp [isNullish] at hn
        | num n => simp [isNullish] at hn
        | str st => simp [isNullish] at hn
      rw [heq] at hy
      exact ih k hxs y hy
    · have hfx : isFlatObj x = true := by
        rcases hx with h | h
        · exact absurd h hn
        · exact h
      cases x with
      | obj fs =>
        have heq : flatBatchRewrite cfg pfx pk (Json.obj fs :: xs) k =
            (Json.obj (withGeneratedId cfg pfx pk fs k).1 ::
              (flatBatchRewrite cfg pfx pk xs
                ((withGeneratedId cfg pfx pk fs k).2)).1,
             (flatBatchRewrite cfg pfx pk xs
                ((withGeneratedId cfg pfx pk fs k).2)).2) := rfl
        rw [heq] at hy
        dsimp only at hy
        rcases List.mem_cons.mp hy with h | h
        · exact ⟨_, h, withGen_stamped cfg pk pfx fs k hpfx⟩
        · exact ih _ hxs y h
      | arr zs => simp [isFlatObj] at hfx
      | null => simp [isFlatObj] at hfx
      | undef => simp [isFlatObj] at hfx
      | bool b => simp [isFlatObj] at hfx
      | num n => simp [isFlatObj] at hfx
      | str st => simp [isFlatObj] at hfx

/-- C6 counterexample: a `createMany` batch `[null, {}]` comes back with
the `null` entry *removed* — the array is compacted from length 2 to
length 1 — contradicting "null entries are preserved unchanged at their
original array indices (the array is not compacted and its length is
unchanged)". -/
theorem c6_counterexample :
    createManyHandler c3cfg "User" (.arr [.null, .obj []]) 0 =
      .ok (.arr [.obj [("id", .str "usr_b")]], 1) ∧
    [Json.null, Json.obj []].length = 2 ∧
    [Json.obj [("id", Json.str "usr_b")]].length = 1 := by
  refine ⟨?_, rfl, rfl⟩
  simp +decide [createManyHandler, createManyItems, isNullish, pncTop, jsize,
    jsizeList, jsizeFields, processNestedCreates, pncFields, pncEntry, pncList,
    ensurePrefixForModel, prefixOf, lookupPm, withGeneratedId, isMissingId,
    lookupF, setF, getF, truthy, typeofObject, hasCreateKey, hasCreateManyKey,
    hasCocKey, hasUpsertKey, resolveNestedModelInfo, inferModelNameFromRelation,
    capitalize, strEndsWith, strDropRight, stampTop, c3cfg]

/-- C6 (amended): a `createMany` batch of null/undefined entries mixed
with flat-record objects never throws once the root prefix resolves; the
result is exactly `flatBatchRewrite`: nullish entries are *filtered
out* (the result's length is the number of non-nullish entries — the
array is compacted, not preserved index-by-index), the surviving
entries keep their relative order, each one ends up with a present
identifier, and an entry whose identifier was missing receives the
freshly generated `prefix ++ body` string. -/
theorem c6_null_tolerant_createMany (cfg : ExtConfig) (model pfx : String)
    (xs : List Json) (k : Nat)
    (hEn : ensurePrefixForModel cfg model = .ok pfx)
    (hflat : ∀ x ∈ xs, isNullish x = true ∨ isFlatObj x = true) :
    createManyHandler cfg model (.arr xs) k =
      .ok (.arr (flatBatchRewrite cfg pfx (cfg.pkOf model) xs k).1,
        (flatBatchRewrite cfg pfx (cfg.pkOf model) xs k).2) ∧
    (flatBatchRewrite cfg pfx (cfg.pkOf model) xs k).1.length =
      (xs.filter (fun x => !isNullish x)).length ∧
    (∀ y ∈ (flatBatchRewrite cfg pfx (cfg.pkOf model) xs k).1,
      ∃ gs, y = .obj gs ∧ isMissingId (cfg.pkOf model) gs = false) ∧
    (∀ fs k2, isMissingId (cfg.pkOf model) fs = true →
      (withGeneratedId cfg pfx (cfg.pkOf model) fs k2).1 =
        setF fs (cfg.pkOf model) (.str (pfx ++ cfg.bodies k2))) := by
  have hpfx := ensure_ok_ne hEn
  refine ⟨?_, flatBatchRewrite_length cfg pfx _ xs k,
    flatBatchRewrite_stamped cfg pfx _ hpfx xs k hflat, ?_⟩
  · unfold createManyHandler
    rw [hEn]
    dsimp only
    rw [createManyItems_flat cfg pfx (cfg.pkOf model) model hpfx xs k hflat]
  · intro fs k2 hmiss
    rw [withGen_stamp k2 hmiss]

theorem c6_witness :
    (ensurePrefixForModel c3cfg "User" = .ok "usr_" ∧
      (∀ x ∈ [Json.null, Json.obj []],
        isNullish x = true ∨ isFlatObj x = true)) ∧
    (createManyHandler c3cfg "User" (.arr [.null, .obj []]) 0 =
      .ok (.arr (flatBatchRewrite c3cfg "usr_" (c3cfg.pkOf "User")
          [.null, .obj []] 0).1,
        (flatBatchRewrite c3cfg "usr_" (c3cfg.pkOf "User")
          [.null, .obj []] 0).2) ∧
    (flatBatchRewrite c3cfg "usr_" (c3cfg.pkOf "User")
        [.null, .obj []] 0).1.length =
      ([Json.null, Json.obj []].filter (fun x => !isNullish x)).length ∧
    (∀ y ∈ (flatBatchRewrite c3cfg "usr_" (c3cfg.pkOf "User")
        [.null, .obj []] 0).1,
      ∃ gs, y = .obj gs ∧ isMissingId (c3cfg.pkOf "User") gs = false) ∧
    (∀ fs k2, isMissingId (c3cfg.pkOf "User") fs = true →
      (withGeneratedId c3cfg "usr_" (c3cfg.pkOf "User") fs k2).1 =
        setF fs (c3cfg.pkOf "User") (.str ("usr_" ++ c3cfg.bodies k2)))) := by
  have hEn : ensurePrefixForModel c3cfg "User" = .ok "usr_" := by
    simp +decide [ensurePrefixForModel, prefixOf, lookupPm, c3cfg]
  have hflat : ∀ x ∈ [Json.null, Json.obj []],
      isNullish x = true ∨ isFlatObj x = true := by
    intro x hx
    simp only [List.mem_cons, List.not_mem_nil, or_false] at hx
    rcases hx with rfl | rfl
    · exact Or.inl rfl
    · exact Or.inr rfl
  exact ⟨⟨hEn, hflat⟩,
    c6_null_tolerant_createMany c3cfg "User" "usr_" [.null, .obj []] 0 hEn hflat⟩

end PrismaKsuid
